import Mathlib

/-!
ExplosionContainer: a shallow embedding of `src/components/ExplosionContainer.js`.

* Numbers are exact rationals (`ℚ`): the physics is modelled in exact
  arithmetic, not in IEEE doubles.
* `Math.random()` is a stream `rng : Nat → ℚ`; the world records how many
  draws have been consumed (`rngPos`).
* The refs (`explosionContainerRef`, `footerRef`, `particlesRef`,
  `animationIdRef`), the React state cell `explosionTriggered`, the pending
  `requestAnimationFrame` callbacks and the pending `setTimeout` callbacks are
  fields of an explicit `World`.
* The scheduler is explicit: `setTimeout` and `requestAnimationFrame` add a
  pending callback under a fresh handle, the environment fires it later.
* The component body is a function of the render: every closure it creates
  (`explode`, `checkFooterPosition`) reads `explosionTriggered` as a constant
  of the render that created it.  These functions therefore take that constant
  as an argument.  The effect `useEffect(..., [])` runs once, after the first
  render, so the listeners and timers it registers hold the closures of the
  first render, in which `explosionTriggered` is `useState(false)`'s initial
  value.
-/

namespace ExplosionContainer

/-! ## Configuration (lines 12-27) -/

/-- Shape of the `config` object literal. -/
structure Config where
  gravity : ℚ
  friction : ℚ
  imageSize : ℚ
  horizontalForce : ℚ
  verticalForce : ℚ
  rotationSpeed : ℚ
  resetDelay : Nat
  initialSpacing : ℚ

/-- The `config` constant of the component. -/
def config : Config where
  gravity := 0.25
  friction := 0.99
  imageSize := 150
  horizontalForce := 20
  verticalForce := 15
  rotationSpeed := 10
  resetDelay := 1500
  initialSpacing := 30

/-- The number of image particles. -/
def imageParticleCount : Nat := 15

/-- The image paths: the number `k` stands for the path `/assets/img-k.jpg`;
`Array.from({ length: 15 }, (_, i) => ...)` yields `k = i + 1` for `i = 0..14`. -/
def imagePaths : List Nat :=
  (List.range imageParticleCount).map (fun i => i + 1)

/-! ## Particle (lines 29-62) -/

/-- The value written to `element.style.transform`:
`translate(x px, y px) rotate(rotation deg)`. -/
structure Transform where
  x : ℚ
  y : ℚ
  rotation : ℚ
deriving DecidableEq

/-- An `img` element created by `createParticles`.  `id` is the identity of the
element object (two elements are the same object iff their ids are equal). -/
structure Img where
  id : Nat
  src : Nat
  hasParticleClass : Bool
  width : ℚ
  transform : Option Transform
deriving DecidableEq

/-- Instance state of `class Particle`.  `element` is a reference to an `img`. -/
structure Particle where
  element : Nat
  x : ℚ
  y : ℚ
  vx : ℚ
  vy : ℚ
  rotation : ℚ
  rotationSpeed : ℚ
deriving DecidableEq

/-- The field assignments of `constructor(element, containerWidth)`; `r1 .. r5`
are the results of the five `Math.random()` calls in evaluation order
(for `x`, `y`, `vx`, `vy`, `rotationSpeed`). -/
def Particle.new (element : Nat) (containerWidth : ℚ) (r1 r2 r3 r4 r5 : ℚ) : Particle where
  element := element
  x := r1 * containerWidth * 0.8 - containerWidth * 0.4
  y := r2 * config.initialSpacing - config.initialSpacing
  vx := (r3 - 0.5) * config.horizontalForce
  vy := -config.verticalForce - r4 * 10
  rotation := 0
  rotationSpeed := (r5 - 0.5) * config.rotationSpeed

/-- The transform `applyStyles` writes for a particle. -/
def Particle.transform (p : Particle) : Transform :=
  ⟨p.x, p.y, p.rotation⟩

/-- The method `applyStyles()`, acting on a list of elements: the element the
particle refers to gets the particle's transform, every other element is left
alone.  (`if (this.element)` always holds: the reference is never null.) -/
def Particle.applyStyles (p : Particle) (dom : List Img) : List Img :=
  dom.map (fun e => if e.id = p.element then { e with transform := some p.transform } else e)

/-- The field updates of the method `update()`, statement by statement
(lines 51-58); the call of `applyStyles` that ends the method is made by
`tick`, which owns the elements. -/
def Particle.update (p : Particle) : Particle :=
  let p := { p with vy := p.vy + config.gravity }
  let p := { p with vx := p.vx * config.friction }
  let p := { p with vy := p.vy * config.friction }
  let p := { p with rotationSpeed := p.rotationSpeed * config.friction }
  let p := { p with x := p.x + p.vx }
  let p := { p with y := p.y + p.vy }
  let p := { p with rotation := p.rotation + p.rotationSpeed }
  p

/-! ## The world: refs, React state, DOM, scheduler -/

/-- The container `div` behind `explosionContainerRef.current`: its layout box
and its child elements.  Its own CSS (position, width, left, z-index, ...) is
not part of the model. -/
structure Container where
  offsetWidth : ℚ
  offsetHeight : ℚ
  children : List Img
deriving DecidableEq

/-- What `getBoundingClientRect()` returns for the footer, as far as it is read. -/
structure Rect where
  top : ℚ
  height : ℚ
deriving DecidableEq

/-- The two functions handed to `setTimeout`: `checkFooterPosition` (lines 187
and 194, the closure of the first render) and the reset arrow function of
`animate` (lines 134-137). -/
inductive Callback where
  | checkFooterPosition
  | reset
deriving DecidableEq

/-- A pending `setTimeout` callback. -/
structure Timer where
  handle : Nat
  delay : Nat
  callback : Callback
deriving DecidableEq

/-- A pending `requestAnimationFrame(animate)` callback; `loop` names the call
of `explode` whose `animate` closure it is (the index of its `finished`
variable). -/
structure Frame where
  handle : Nat
  loop : Nat
deriving DecidableEq

/-- The state of the component and of the parts of the browser it talks to. -/
structure World where
  /-- The ref `explosionContainerRef.current`. -/
  container : Option Container
  /-- The ref `footerRef.current`, with the footer's current bounding rect. -/
  footer : Option Rect
  /-- The value of `window.innerHeight`. -/
  viewportHeight : ℚ
  /-- The React state cell behind `useState(false)`. -/
  explosionTriggered : Bool
  /-- The ref `particlesRef.current`. -/
  particles : List Particle
  /-- The ref `animationIdRef.current`. -/
  animationId : Option Nat
  /-- The local variables `finished`, one for each call of `explode` that got
  past its guard, in call order. -/
  finished : List Bool
  /-- Pending frame callbacks. -/
  frames : List Frame
  /-- Pending timeouts. -/
  timers : List Timer
  /-- The variable `checkTimeout` of the effect. -/
  checkTimeout : Option Nat
  /-- Whether the scroll and resize listeners are registered. -/
  listening : Bool
  /-- Number of scheduler handles handed out so far (handles are `1, 2, ...`). -/
  handles : Nat
  /-- Number of elements created so far by `document.createElement`. -/
  nextElem : Nat
  /-- Number of `Math.random()` draws consumed so far. -/
  rngPos : Nat
deriving DecidableEq

/-- The browser's `cancelAnimationFrame(handle)`. -/
def cancelAnimationFrame (handle : Nat) (w : World) : World :=
  { w with frames := w.frames.filter (fun f => f.handle ≠ handle) }

/-- The browser's `clearTimeout(handle)`; `clearTimeout(undefined)` does nothing. -/
def clearTimeout (handle : Option Nat) (w : World) : World :=
  match handle with
  | none => w
  | some h => { w with timers := w.timers.filter (fun t => t.handle ≠ h) }

/-- The browser's `setTimeout(callback, delay)`: returns the new handle with the
new world. -/
def setTimeout (callback : Callback) (delay : Nat) (w : World) : Nat × World :=
  (w.handles + 1,
    { w with timers := w.timers ++ [⟨w.handles + 1, delay, callback⟩], handles := w.handles + 1 })

/-- The browser's `requestAnimationFrame(animate)` for the `animate` closure of
loop `loop`: returns the new (non-zero) handle with the new world. -/
def requestAnimationFrame (loop : Nat) (w : World) : Nat × World :=
  (w.handles + 1,
    { w with frames := w.frames ++ [⟨w.handles + 1, loop⟩], handles := w.handles + 1 })

/-! ## cleanupPreviousExplosion (lines 64-77) -/

/-- The function `cleanupPreviousExplosion`.  The test `if (animationIdRef.current)`
is JavaScript truthiness: `null` and `0` fail it. -/
def cleanupPreviousExplosion (w : World) : World :=
  let w :=
    match w.animationId with
    | some h => if h ≠ 0 then { cancelAnimationFrame h w with animationId := none } else w
    | none => w
  let w :=
    match w.container with
    | some c => { w with container := some { c with children := [] } }
    | none => w
  { w with particles := [] }

/-! ## createParticles (lines 79-110) -/

/-- The elements made by the `imagePaths.forEach` loop, the first one getting
identity `next`: each has its `src`, the class `explosion-particle-img`, the
width `config.imageSize` and no transform yet. -/
def createImgs : Nat → List Nat → List Img
  | _, [] => []
  | next, path :: rest => ⟨next, path, true, config.imageSize, none⟩ :: createImgs (next + 1) rest

/-- The `map` of line 107: one `new Particle(element, containerWidth)` for each
element, in order, each consuming five draws starting at position `pos`. -/
def constructParticles (rng : Nat → ℚ) (containerWidth : ℚ) : List Img → Nat → List Particle
  | [], _ => []
  | e :: es, pos =>
    Particle.new e.id containerWidth (rng pos) (rng (pos + 1)) (rng (pos + 2)) (rng (pos + 3))
        (rng (pos + 4))
      :: constructParticles rng containerWidth es (pos + 5)

/-- Every particle of the list writes its transform (`applyStyles`), in order. -/
def applyAllStyles (ps : List Particle) (dom : List Img) : List Img :=
  ps.foldl (fun d p => p.applyStyles d) dom

/-- The function `createParticles`. -/
def createParticles (rng : Nat → ℚ) (w : World) : World :=
  match w.container with
  | none => w
  | some _ =>
    let w := cleanupPreviousExplosion w
    match w.container with
    | none => w
    | some c =>
      let containerWidth := c.offsetWidth
      let c := { c with children := c.children ++ createImgs w.nextElem imagePaths }
      let particleElements := c.children.filter (fun e => e.hasParticleClass)
      let ps := constructParticles rng containerWidth particleElements w.rngPos
      let c := { c with children := applyAllStyles ps c.children }
      { w with
        container := some c
        nextElem := w.nextElem + imagePaths.length
        rngPos := w.rngPos + 5 * particleElements.length
        particles := ps }

/-! ## explode and animate (lines 112-145) -/

/-- The statement `particlesRef.current.forEach((particle) => particle.update())`:
every particle is updated and writes its new transform. -/
def tick (w : World) : World :=
  let ps := w.particles.map Particle.update
  { w with
    particles := ps
    container := w.container.map (fun c => { c with children := applyAllStyles ps c.children }) }

/-- The condition of lines 126-132: the container ref is set and every particle
has `y > offsetHeight / 2`. -/
def settled (w : World) : Bool :=
  match w.container with
  | none => false
  | some c => w.particles.all (fun p => decide (p.y > c.offsetHeight / 2))

/-- The closure `animate` of the call of `explode` number `loop`. -/
def animate (loop : Nat) (w : World) : World :=
  if w.finished.getD loop false then w
  else
    let w := tick w
    if settled w then
      let w := { w with finished := w.finished.set loop true }
      (setTimeout Callback.reset config.resetDelay w).2
    else
      let (h, w) := requestAnimationFrame loop w
      { w with animationId := some h }

/-- The closure `explode` of a render in which the constant `explosionTriggered`
has the given value. -/
def explode (rng : Nat → ℚ) (explosionTriggered : Bool) (w : World) : World :=
  if explosionTriggered then w
  else
    let w := { w with explosionTriggered := true }
    let w := createParticles rng w
    let loop := w.finished.length
    let w := { w with finished := w.finished ++ [false] }
    animate loop w

/-- The arrow function of lines 134-137, run when the reset timeout fires. -/
def resetCallback (w : World) : World :=
  let w := cleanupPreviousExplosion w
  { w with explosionTriggered := false }

/-! ## checkFooterPosition (lines 147-163) -/

/-- The closure `checkFooterPosition` of a render in which the constant
`explosionTriggered` has the given value.  The two writes of lines 154-155 set
the container's own CSS, which is not part of the model.  The comparison is
made in exact arithmetic; it is the comparison of the source wherever
`height * 0.5` and the subtraction are computed without rounding, as they are
for the integer geometry used in the concrete worlds below. -/
def checkFooterPosition (rng : Nat → ℚ) (explosionTriggered : Bool) (w : World) : World :=
  match w.footer, w.container with
  | some footerRect, some _ =>
    if !explosionTriggered && decide (footerRect.top ≤ w.viewportHeight - footerRect.height * 0.5)
    then explode rng explosionTriggered w
    else w
  | _, _ => w

/-! ## The mount effect and the events (lines 165-202) -/

/-- The value of the constant `explosionTriggered` in the first render: the
initial value given to `useState`. -/
def firstRenderExplosionTriggered : Bool := false

/-- The body of the effect, run once after the first render: `documentFooter` is
what `document.querySelector("footer")` finds.  It sets `footerRef`, registers
the listeners and schedules the initial check.  Preloading the images and
styling the container (lines 167-182) do not touch the modelled state. -/
def mountEffect (documentFooter : Option Rect) (w : World) : World :=
  let w := { w with footer := documentFooter }
  let w := { w with listening := true }
  (setTimeout Callback.checkFooterPosition 500 w).2

/-- The listener `handleScroll` (lines 185-188). -/
def handleScroll (w : World) : World :=
  let w := clearTimeout w.checkTimeout w
  let (h, w) := setTimeout Callback.checkFooterPosition 10 w
  { w with checkTimeout := some h }

/-- Running a timeout callback.  The `checkFooterPosition` the effect handed to
`setTimeout` is the closure of the first render. -/
def runCallback (rng : Nat → ℚ) (cb : Callback) (w : World) : World :=
  match cb with
  | Callback.checkFooterPosition => checkFooterPosition rng firstRenderExplosionTriggered w
  | Callback.reset => resetCallback w

/-- The timeout with the given handle fires (nothing happens if none is pending). -/
def fireTimeout (rng : Nat → ℚ) (handle : Nat) (w : World) : World :=
  match w.timers.find? (fun t => t.handle = handle) with
  | none => w
  | some t => runCallback rng t.callback { w with timers := w.timers.filter (fun u => u.handle ≠ handle) }

/-- The frame callback with the given handle fires (nothing happens if none is
pending). -/
def fireFrame (handle : Nat) (w : World) : World :=
  match w.frames.find? (fun f => f.handle = handle) with
  | none => w
  | some f => animate f.loop { w with frames := w.frames.filter (fun g => g.handle ≠ handle) }

/-- The browser delivers the frame the animation loop asked for last, if it is
still pending. -/
def nextFrame (w : World) : World :=
  match w.animationId with
  | none => w
  | some h => fireFrame h w

/-- What the environment can do to a mounted component.  Time is not modelled:
a pending timeout or frame callback may fire at any moment, its delay is only
recorded.  Unmounting is not an event of the model. -/
inductive Event where
  /-- The page scrolls or is laid out anew: the footer gets a new bounding
  rect and the viewport a new height.  No handler runs. -/
  | layout (footer : Rect) (viewportHeight : ℚ)
  /-- A `scroll` event on `window`. -/
  | scroll
  /-- A `resize` event on `window`. -/
  | resize
  /-- A pending timeout fires. -/
  | timeout (handle : Nat)
  /-- A pending frame callback fires. -/
  | frame (handle : Nat)

/-- One event. -/
def step (rng : Nat → ℚ) (w : World) : Event → World
  | Event.layout r vh => { w with footer := w.footer.map (fun _ => r), viewportHeight := vh }
  | Event.scroll => if w.listening then handleScroll w else w
  | Event.resize => if w.listening then cleanupPreviousExplosion w else w
  | Event.timeout h => fireTimeout rng h w
  | Event.frame h => fireFrame h w

/-- A sequence of events. -/
def run (rng : Nat → ℚ) (w : World) (es : List Event) : World :=
  es.foldl (step rng) w

/-- The world right after the first render: container of the given size rendered
and empty, nothing scheduled, nothing created. -/
def initial (containerWidth containerHeight viewportHeight : ℚ) : World where
  container := some ⟨containerWidth, containerHeight, []⟩
  footer := none
  viewportHeight := viewportHeight
  explosionTriggered := false
  particles := []
  animationId := none
  finished := []
  frames := []
  timers := []
  checkTimeout := none
  listening := false
  handles := 0
  nextElem := 0
  rngPos := 0

/-! ## Definitions used by the statements and the proofs -/

/-- The result of one `Math.random()` call lies in `[0, 1)`. -/
def UnitDraw (r : ℚ) : Prop := 0 ≤ r ∧ r < 1

/-- What the physics needs to know about a freshly constructed particle. -/
structure Launched (p : Particle) : Prop where
  y_ge : -30 ≤ p.y
  y_neg : p.y < 0
  vy_ge : -25 ≤ p.vy
  vy_le : p.vy ≤ -15

/-- The particles `createParticles` builds in world `w` when the container has
width `cw`. -/
def newField (rng : Nat → ℚ) (cw : ℚ) (w : World) : List Particle :=
  constructParticles rng cw (createImgs w.nextElem imagePaths) w.rngPos

/-- The number of ticks after which a field in a container of height `h` is
settled whatever the draws were. -/
def settleBound (h : ℚ) : Nat :=
  102 + (Nat.ceil ((h / 2 + 2580) * (200 / 49)) + 1)

/-- Handles and loop indices in use have been handed out, and frame handles are
not zero. -/
structure WF (w : World) : Prop where
  frames_pos : ∀ f ∈ w.frames, 1 ≤ f.handle
  frames_handle : ∀ f ∈ w.frames, f.handle ≤ w.handles
  frames_loop : ∀ f ∈ w.frames, f.loop < w.finished.length
  timers_handle : ∀ t ∈ w.timers, t.handle ≤ w.handles

/-- The loop `loop`, started on the particles `P` in a container of height `H`,
has made `k` ticks and waits for its next frame. -/
structure Running (loop : Nat) (P : List Particle) (H : ℚ) (k : Nat) (w : World) : Prop where
  fin : w.finished.getD loop false = false
  inb : loop < w.finished.length
  parts : w.particles = P.map (Particle.update^[k])
  cont : ∃ c, w.container = some c ∧ c.offsetHeight = H
  anim : w.animationId = some w.handles
  pend : ⟨w.handles, loop⟩ ∈ w.frames
  frames_pos : ∀ f ∈ w.frames, 1 ≤ f.handle
  frames_handle : ∀ f ∈ w.frames, f.handle ≤ w.handles
  frames_own : ∀ f ∈ w.frames, (f.handle = w.handles ↔ f.loop = loop)
  timers_handle : ∀ t ∈ w.timers, t.handle ≤ w.handles

/-- The loop `loop` has made `k` ticks, the last of which found the field
settled: no frame of the loop is pending and the reset it scheduled is. -/
structure Settling (loop : Nat) (P : List Particle) (H : ℚ) (k : Nat) (w : World) : Prop where
  fin : w.finished.getD loop false = true
  parts : w.particles = P.map (Particle.update^[k])
  cont : ∃ c, w.container = some c ∧ c.offsetHeight = H
  quiet : ∀ f ∈ w.frames, f.loop ≠ loop
  stale : ∀ f ∈ w.frames, some f.handle ≠ w.animationId
  reset : ⟨w.handles, config.resetDelay, Callback.reset⟩ ∈ w.timers
  timers_handle : ∀ t ∈ w.timers, t.handle ≤ w.handles
  timers_own : ∀ t ∈ w.timers, t.handle = w.handles → t.callback = Callback.reset

/-- The world in which `explode` calls `animate()` (line 144). -/
def beforeAnimate (rng : Nat → ℚ) (w : World) : World :=
  { createParticles rng { w with explosionTriggered := true } with
    finished := (createParticles rng { w with explosionTriggered := true }).finished ++ [false] }

/-- The fields of the world in which `explode` calls `animate()`. -/
structure Prepared (rng : Nat → ℚ) (w : World) (c : Container) (v : World) : Prop where
  finished : v.finished = w.finished ++ [false]
  particles : v.particles = newField rng c.offsetWidth w
  container : v.container = some ⟨c.offsetWidth, c.offsetHeight,
    applyAllStyles (newField rng c.offsetWidth w) (createImgs w.nextElem imagePaths)⟩
  handles : v.handles = w.handles
  timers : v.timers = w.timers
  frames : ∀ f ∈ v.frames, f ∈ w.frames
  animationId : v.animationId = none ∨ v.animationId = some 0
  nextElem : v.nextElem = w.nextElem + 15
  explosionTriggered : v.explosionTriggered = true
  footer : v.footer = w.footer
  viewportHeight : v.viewportHeight = w.viewportHeight

/-- The call that turned `w` into `v` started an explosion: it created one
`animate` loop, fifteen elements, and left in `particlesRef` a field of fifteen
particles, one on each of these elements. -/
def StartedExplosion (w v : World) : Prop :=
  v.finished.length = w.finished.length + 1
    ∧ v.nextElem = w.nextElem + 15
    ∧ v.particles.map (fun p => p.element) = List.range' w.nextElem 15

/-- The draws all equal to one half. -/
def rngHalf : Nat → ℚ := fun _ => 1 / 2

/-- The scenario of the specification: container width 1000, footer height
100, viewport height 800, the footer's top at `boundaryTop`; nothing has
happened yet. -/
def scenario (boundaryTop : ℚ) : World :=
  { initial 1000 0 800 with footer := some ⟨boundaryTop, 100⟩ }

/-- What holds of every world reached from the mounted component. -/
structure Inv (w : World) : Prop where
  listening : w.listening = true
  cont : ∃ c, w.container = some c
    ∧ c.children.map (fun e => e.id) = w.particles.map (fun p => p.element)
  frames_anim : ∀ f ∈ w.frames, w.animationId = some f.handle
  anim_pos : w.animationId ≠ some 0
  idle : w.particles = [] → w.animationId = none

/-- The mounted component of the scenario with the footer's top at 700: the
effect has run, the initial check (handle 1) is pending. -/
def mounted : World :=
  mountEffect (some ⟨700, 100⟩) (initial 1000 0 800)

/-- The initial check fires and starts an explosion; the 132 frames the loop
asks for (handles 2 to 133) are delivered; the last one finds the field
settled. -/
def settleTrace : List Event :=
  Event.timeout 1 :: (List.range 132).map (fun i => Event.frame (i + 2))

/-! ## Physics of one particle -/

theorem update_vy (p : Particle) : p.update.vy = (p.vy + 1 / 4) * (99 / 100) := by
  simp only [Particle.update, config]; norm_num

theorem update_vx (p : Particle) : p.update.vx = p.vx * (99 / 100) := by
  simp only [Particle.update, config]; norm_num

theorem update_rotationSpeed (p : Particle) :
    p.update.rotationSpeed = p.rotationSpeed * (99 / 100) := by
  simp only [Particle.update, config]; norm_num

theorem update_x (p : Particle) : p.update.x = p.x + p.update.vx := by
  simp only [Particle.update, config]

theorem update_y (p : Particle) : p.update.y = p.y + p.update.vy := by
  simp only [Particle.update, config]

theorem update_rotation (p : Particle) :
    p.update.rotation = p.rotation + p.update.rotationSpeed := by
  simp only [Particle.update, config]

theorem update_element (p : Particle) : p.update.element = p.element := by
  simp only [Particle.update]

theorem iterate_update_element (n : Nat) (p : Particle) :
    (Particle.update^[n] p).element = p.element := by
  induction n with
  | zero => rfl
  | succ k ih => rw [Function.iterate_succ_apply', update_element, ih]

/-- A positive vertical velocity stays positive. -/
theorem vy_pos_step (p : Particle) (h : 0 < p.vy) : 0 < p.update.vy := by
  rw [update_vy]; nlinarith

theorem vy_pos_iterate (p : Particle) (h : 0 < p.vy) (n : Nat) :
    0 < (Particle.update^[n] p).vy := by
  induction n with
  | zero => exact h
  | succ k ih => rw [Function.iterate_succ_apply']; exact vy_pos_step _ ih

theorem vy_pos_mono (p : Particle) {m n : Nat} (hmn : m ≤ n)
    (h : 0 < (Particle.update^[m] p).vy) : 0 < (Particle.update^[n] p).vy := by
  obtain ⟨k, rfl⟩ := Nat.exists_eq_add_of_le hmn
  rw [Nat.add_comm, Function.iterate_add_apply]
  exact vy_pos_iterate _ h k

/-- Until the vertical velocity is positive the particle is not below its
starting height. -/
theorem y_le_or_vy_pos (p : Particle) (n : Nat) :
    (Particle.update^[n] p).y ≤ p.y ∨ 0 < (Particle.update^[n] p).vy := by
  induction n with
  | zero => left; exact le_refl _
  | succ k ih =>
    rw [Function.iterate_succ_apply']
    rcases ih with ih | ih
    · by_cases hv : 0 < (Particle.update (Particle.update^[k] p)).vy
      · right; exact hv
      · left; rw [update_y]; linarith
    · right; exact vy_pos_step _ ih

/-- Once a particle is below a level that its starting height is not below, one
more update keeps it below that level. -/
theorem y_gt_step (p : Particle) (l : ℚ) (h0 : p.y ≤ l) (n : Nat)
    (h : l < (Particle.update^[n] p).y) : l < (Particle.update^[n + 1] p).y := by
  rw [Function.iterate_succ_apply', update_y]
  rcases y_le_or_vy_pos p n with h1 | h1
  · linarith
  · have := vy_pos_step _ h1
    linarith

/-- The vertical velocity gains at least `0.2475` per update until it is at
least `0.2475`. -/
theorem vy_lower (p : Particle) (h : -25 ≤ p.vy) (n : Nat) :
    min (-25 + 99 / 400 * (n : ℚ)) (99 / 400) ≤ (Particle.update^[n] p).vy := by
  induction n with
  | zero => simp; left; exact h
  | succ k ih =>
    rw [Function.iterate_succ_apply', update_vy]
    push_cast
    rcases le_total 0 (Particle.update^[k] p).vy with hv | hv
    · exact le_trans (min_le_right _ _) (by nlinarith)
    · rcases min_le_iff.mp (le_refl (min (-25 + 99 / 400 * (k : ℚ)) (99 / 400))) with hm | hm
      · exact le_trans (min_le_left _ _) (by nlinarith)
      · exfalso; linarith

theorem vy_ge_neg25 (p : Particle) (h : -25 ≤ p.vy) (n : Nat) :
    -25 ≤ (Particle.update^[n] p).vy := by
  have h1 := vy_lower p h n
  have h2 : (-25 : ℚ) ≤ min (-25 + 99 / 400 * (n : ℚ)) (99 / 400) := by
    apply le_min
    · have : (0 : ℚ) ≤ (n : ℚ) := Nat.cast_nonneg n
      nlinarith
    · norm_num
  exact le_trans h2 h1

theorem vy_ge_late (p : Particle) (h : -25 ≤ p.vy) (n : Nat) (hn : 102 ≤ n) :
    49 / 200 ≤ (Particle.update^[n] p).vy := by
  have h1 := vy_lower p h n
  have h2 : (49 / 200 : ℚ) ≤ min (-25 + 99 / 400 * (n : ℚ)) (99 / 400) := by
    apply le_min
    · have : (102 : ℚ) ≤ (n : ℚ) := by exact_mod_cast hn
      nlinarith
    · norm_num
  exact le_trans h2 h1

theorem y_lower_early (p : Particle) (h : -25 ≤ p.vy) (n : Nat) :
    p.y - 25 * (n : ℚ) ≤ (Particle.update^[n] p).y := by
  induction n with
  | zero => simp
  | succ k ih =>
    have hv := vy_ge_neg25 p h (k + 1)
    rw [Function.iterate_succ_apply'] at hv ⊢
    rw [update_y]
    push_cast
    linarith

theorem y_lower_late (p : Particle) (h : -25 ≤ p.vy) (n : Nat) :
    p.y - 2550 + 49 / 200 * (n : ℚ) ≤ (Particle.update^[102 + n] p).y := by
  induction n with
  | zero =>
    have := y_lower_early p h 102
    simp only [Nat.add_zero, Nat.cast_zero, mul_zero, add_zero]
    push_cast at this
    linarith
  | succ k ih =>
    have hv := vy_ge_late p h (102 + (k + 1)) (by omega)
    rw [show 102 + (k + 1) = (102 + k) + 1 from rfl] at hv ⊢
    rw [Function.iterate_succ_apply'] at hv ⊢
    rw [update_y]
    push_cast
    linarith

/-! ## The constructor -/

theorem new_launched (element : Nat) (containerWidth r1 r2 r3 r4 r5 : ℚ)
    (h2 : UnitDraw r2) (h4 : UnitDraw r4) :
    Launched (Particle.new element containerWidth r1 r2 r3 r4 r5) := by
  obtain ⟨h2a, h2b⟩ := h2
  obtain ⟨h4a, h4b⟩ := h4
  constructor <;> simp only [Particle.new, config] <;> linarith

theorem new_element (element : Nat) (containerWidth r1 r2 r3 r4 r5 : ℚ) :
    (Particle.new element containerWidth r1 r2 r3 r4 r5).element = element := rfl

/-- The velocity of a launched particle becomes positive within 103 updates. -/
theorem launched_vy_pos (p : Particle) (h : Launched p) :
    0 < (Particle.update^[102 + 1] p).vy := by
  have := vy_ge_late p h.vy_ge (102 + 1) (by omega)
  linarith

/-! ## Elements and particles made by createParticles -/

theorem createImgs_length (next : Nat) (paths : List Nat) :
    (createImgs next paths).length = paths.length := by
  induction paths generalizing next with
  | nil => rfl
  | cons a l ih => simp [createImgs, ih]

theorem createImgs_filter (next : Nat) (paths : List Nat) :
    (createImgs next paths).filter (fun e => e.hasParticleClass) = createImgs next paths := by
  induction paths generalizing next with
  | nil => rfl
  | cons a l ih => simp [createImgs, ih]

theorem createImgs_ids (next : Nat) (paths : List Nat) :
    (createImgs next paths).map (fun e => e.id) = List.range' next paths.length := by
  induction paths generalizing next with
  | nil => rfl
  | cons a l ih => simp [createImgs, ih, List.range'_succ]

theorem constructParticles_length (rng : Nat → ℚ) (cw : ℚ) (es : List Img) (pos : Nat) :
    (constructParticles rng cw es pos).length = es.length := by
  induction es generalizing pos with
  | nil => rfl
  | cons e l ih => simp [constructParticles, ih]

theorem constructParticles_elements (rng : Nat → ℚ) (cw : ℚ) (es : List Img) (pos : Nat) :
    (constructParticles rng cw es pos).map (fun p => p.element) = es.map (fun e => e.id) := by
  induction es generalizing pos with
  | nil => rfl
  | cons e l ih => simp [constructParticles, ih, new_element]

theorem constructParticles_launched (rng : Nat → ℚ) (hr : ∀ i, UnitDraw (rng i)) (cw : ℚ)
    (es : List Img) (pos : Nat) : ∀ p ∈ constructParticles rng cw es pos, Launched p := by
  induction es generalizing pos with
  | nil => intro p hp; simp [constructParticles] at hp
  | cons e l ih =>
    intro p hp
    simp only [constructParticles, List.mem_cons] at hp
    rcases hp with rfl | hp
    · exact new_launched _ _ _ _ _ _ _ (hr _) (hr _)
    · exact ih _ p hp

theorem applyStyles_ids (p : Particle) (dom : List Img) :
    (p.applyStyles dom).map (fun e => e.id) = dom.map (fun e => e.id) := by
  simp only [Particle.applyStyles, List.map_map]
  apply List.map_congr_left
  intro e _
  simp only [Function.comp]
  split <;> rfl

theorem applyAllStyles_ids (ps : List Particle) (dom : List Img) :
    (applyAllStyles ps dom).map (fun e => e.id) = dom.map (fun e => e.id) := by
  induction ps generalizing dom with
  | nil => rfl
  | cons p l ih =>
    simp only [applyAllStyles, List.foldl_cons] at ih ⊢
    rw [ih, applyStyles_ids]

theorem imagePaths_length : imagePaths.length = 15 := by
  simp [imagePaths, imageParticleCount]

theorem newField_length (rng : Nat → ℚ) (cw : ℚ) (w : World) :
    (newField rng cw w).length = 15 := by
  simp [newField, constructParticles_length, createImgs_length, imagePaths_length]

theorem newField_elements (rng : Nat → ℚ) (cw : ℚ) (w : World) :
    (newField rng cw w).map (fun p => p.element) = List.range' w.nextElem 15 := by
  simp [newField, constructParticles_elements, createImgs_ids, imagePaths_length]

theorem newField_launched (rng : Nat → ℚ) (hr : ∀ i, UnitDraw (rng i)) (cw : ℚ) (w : World) :
    ∀ p ∈ newField rng cw w, Launched p :=
  constructParticles_launched rng hr cw _ _

/-! ## cleanupPreviousExplosion and createParticles, field by field -/

theorem cleanup_particles (w : World) : (cleanupPreviousExplosion w).particles = [] := rfl

theorem cleanup_container (w : World) :
    (cleanupPreviousExplosion w).container
      = w.container.map (fun c => { c with children := [] }) := by
  rcases w with ⟨_ | c, ft, vh, et, ps, _ | h, fin, fr, tm, ct, ls, hd, ne, rp⟩ <;>
    simp only [cleanupPreviousExplosion, cancelAnimationFrame] <;>
    first | rfl | (by_cases hz : h = 0 <;> simp [hz])

theorem cleanup_frames (w : World) :
    (cleanupPreviousExplosion w).frames
      = match w.animationId with
        | some h => if h ≠ 0 then w.frames.filter (fun f => f.handle ≠ h) else w.frames
        | none => w.frames := by
  rcases w with ⟨_ | c, ft, vh, et, ps, _ | h, fin, fr, tm, ct, ls, hd, ne, rp⟩ <;>
    simp only [cleanupPreviousExplosion, cancelAnimationFrame] <;>
    first | rfl | (by_cases hz : h = 0 <;> simp [hz])

theorem cleanup_animationId (w : World) :
    (cleanupPreviousExplosion w).animationId
      = match w.animationId with
        | some h => if h ≠ 0 then none else some h
        | none => none := by
  rcases w with ⟨_ | c, ft, vh, et, ps, _ | h, fin, fr, tm, ct, ls, hd, ne, rp⟩ <;>
    simp only [cleanupPreviousExplosion, cancelAnimationFrame] <;>
    first | rfl | (by_cases hz : h = 0 <;> simp [hz])

theorem cleanup_timers (w : World) : (cleanupPreviousExplosion w).timers = w.timers := by
  rcases w with ⟨_ | c, ft, vh, et, ps, _ | h, fin, fr, tm, ct, ls, hd, ne, rp⟩ <;>
    simp only [cleanupPreviousExplosion, cancelAnimationFrame] <;>
    first | rfl | (by_cases hz : h = 0 <;> simp [hz])

theorem cleanup_explosionTriggered (w : World) :
    (cleanupPreviousExplosion w).explosionTriggered = w.explosionTriggered := by
  rcases w with ⟨_ | c, ft, vh, et, ps, _ | h, fin, fr, tm, ct, ls, hd, ne, rp⟩ <;>
    simp only [cleanupPreviousExplosion, cancelAnimationFrame] <;>
    first | rfl | (by_cases hz : h = 0 <;> simp [hz])

theorem cleanup_finished (w : World) : (cleanupPreviousExplosion w).finished = w.finished := by
  rcases w with ⟨_ | c, ft, vh, et, ps, _ | h, fin, fr, tm, ct, ls, hd, ne, rp⟩ <;>
    simp only [cleanupPreviousExplosion, cancelAnimationFrame] <;>
    first | rfl | (by_cases hz : h = 0 <;> simp [hz])

theorem cleanup_handles (w : World) : (cleanupPreviousExplosion w).handles = w.handles := by
  rcases w with ⟨_ | c, ft, vh, et, ps, _ | h, fin, fr, tm, ct, ls, hd, ne, rp⟩ <;>
    simp only [cleanupPreviousExplosion, cancelAnimationFrame] <;>
    first | rfl | (by_cases hz : h = 0 <;> simp [hz])

theorem cleanup_nextElem (w : World) : (cleanupPreviousExplosion w).nextElem = w.nextElem := by
  rcases w with ⟨_ | c, ft, vh, et, ps, _ | h, fin, fr, tm, ct, ls, hd, ne, rp⟩ <;>
    simp only [cleanupPreviousExplosion, cancelAnimationFrame] <;>
    first | rfl | (by_cases hz : h = 0 <;> simp [hz])

theorem cleanup_rngPos (w : World) : (cleanupPreviousExplosion w).rngPos = w.rngPos := by
  rcases w with ⟨_ | c, ft, vh, et, ps, _ | h, fin, fr, tm, ct, ls, hd, ne, rp⟩ <;>
    simp only [cleanupPreviousExplosion, cancelAnimationFrame] <;>
    first | rfl | (by_cases hz : h = 0 <;> simp [hz])

theorem createParticles_eq (rng : Nat → ℚ) (w : World) (c : Container)
    (hc : w.container = some c) :
    createParticles rng w =
      { cleanupPreviousExplosion w with
        container := some ⟨c.offsetWidth, c.offsetHeight,
          applyAllStyles (newField rng c.offsetWidth w) (createImgs w.nextElem imagePaths)⟩
        nextElem := w.nextElem + 15
        rngPos := w.rngPos + 75
        particles := newField rng c.offsetWidth w } := by
  have h1 : (cleanupPreviousExplosion w).container = some ⟨c.offsetWidth, c.offsetHeight, []⟩ := by
    rw [cleanup_container, hc]; rfl
  unfold createParticles
  simp only [hc, h1, List.nil_append, createImgs_filter, createImgs_length, imagePaths_length,
    cleanup_nextElem, cleanup_rngPos, newField]

/-! ## Ticks -/

theorem tick_particles (w : World) : (tick w).particles = w.particles.map Particle.update := rfl

theorem tick_container (w : World) :
    (tick w).container = w.container.map (fun c =>
      { c with children := applyAllStyles (w.particles.map Particle.update) c.children }) := rfl

theorem tick_iterate_particles (n : Nat) (w : World) :
    (tick^[n] w).particles = w.particles.map (Particle.update^[n]) := by
  induction n with
  | zero => simp
  | succ k ih =>
    rw [Function.iterate_succ_apply', tick_particles, ih, List.map_map]
    apply List.map_congr_left
    intro p _
    simp only [Function.comp, Function.iterate_succ_apply']

theorem tick_iterate_height (n : Nat) (w : World) (c : Container) (hc : w.container = some c) :
    ∃ d, (tick^[n] w).container = some d ∧ d.offsetHeight = c.offsetHeight := by
  induction n with
  | zero => exact ⟨c, hc, rfl⟩
  | succ k ih =>
    obtain ⟨d, hd, hh⟩ := ih
    rw [Function.iterate_succ_apply', tick_container, hd]
    exact ⟨_, rfl, hh⟩

theorem settled_iff (w : World) (c : Container) (hc : w.container = some c) :
    settled w = true ↔ ∀ p ∈ w.particles, c.offsetHeight / 2 < p.y := by
  simp [settled, hc]

theorem settled_tick_iterate (n : Nat) (w : World) (c : Container) (hc : w.container = some c) :
    settled (tick^[n] w) = true
      ↔ ∀ p ∈ w.particles, c.offsetHeight / 2 < (Particle.update^[n] p).y := by
  obtain ⟨d, hd, hh⟩ := tick_iterate_height n w c hc
  rw [settled_iff _ d hd, tick_iterate_particles, hh]
  simp

theorem launched_below (p : Particle) (hp : Launched p) (h : ℚ) :
    h / 2 < (Particle.update^[settleBound h] p).y := by
  have h1 := y_lower_late p hp.vy_ge (Nat.ceil ((h / 2 + 2580) * (200 / 49)) + 1)
  have h2 : (h / 2 + 2580) * (200 / 49) ≤ (Nat.ceil ((h / 2 + 2580) * (200 / 49)) : ℚ) :=
    Nat.le_ceil _
  have h3 := hp.y_ge
  unfold settleBound
  push_cast at h1
  linarith

/-! ## The animation loop -/

theorem animate_of_unsettled (loop : Nat) (w : World)
    (hf : w.finished.getD loop false = false) (hs : settled (tick w) = false) :
    animate loop w =
      { tick w with
        frames := w.frames ++ [⟨w.handles + 1, loop⟩]
        handles := w.handles + 1
        animationId := some (w.handles + 1) } := by
  simp only [animate, hf, hs, requestAnimationFrame]
  rfl

theorem animate_of_settled (loop : Nat) (w : World)
    (hf : w.finished.getD loop false = false) (hs : settled (tick w) = true) :
    animate loop w =
      { tick w with
        finished := w.finished.set loop true
        timers := w.timers ++ [⟨w.handles + 1, config.resetDelay, Callback.reset⟩]
        handles := w.handles + 1 } := by
  simp only [animate, hf, hs, setTimeout]
  rfl

theorem animate_nextElem (loop : Nat) (w : World) : (animate loop w).nextElem = w.nextElem := by
  unfold animate
  split
  · rfl
  · simp only []
    split <;> rfl

theorem animate_explosionTriggered (loop : Nat) (w : World) :
    (animate loop w).explosionTriggered = w.explosionTriggered := by
  unfold animate
  split
  · rfl
  · simp only []
    split <;> rfl

theorem animate_elements (loop : Nat) (w : World) :
    (animate loop w).particles.map (fun p => p.element) = w.particles.map (fun p => p.element) := by
  have ht : (tick w).particles.map (fun p => p.element) = w.particles.map (fun p => p.element) := by
    rw [tick_particles, List.map_map]
    apply List.map_congr_left
    intro p _
    exact update_element p
  unfold animate
  split
  · rfl
  · simp only []
    split <;> exact ht

theorem fireFrame_nextElem (h : Nat) (w : World) : (fireFrame h w).nextElem = w.nextElem := by
  unfold fireFrame
  split
  · rfl
  · rw [animate_nextElem]

theorem fireFrame_explosionTriggered (h : Nat) (w : World) :
    (fireFrame h w).explosionTriggered = w.explosionTriggered := by
  unfold fireFrame
  split
  · rfl
  · rw [animate_explosionTriggered]

theorem fireFrame_elements (h : Nat) (w : World) :
    (fireFrame h w).particles.map (fun p => p.element) = w.particles.map (fun p => p.element) := by
  unfold fireFrame
  split
  · rfl
  · rw [animate_elements]

theorem nextFrame_nextElem (w : World) : (nextFrame w).nextElem = w.nextElem := by
  unfold nextFrame
  split
  · rfl
  · exact fireFrame_nextElem _ _

theorem nextFrame_explosionTriggered (w : World) :
    (nextFrame w).explosionTriggered = w.explosionTriggered := by
  unfold nextFrame
  split
  · rfl
  · exact fireFrame_explosionTriggered _ _

theorem nextFrame_elements (w : World) :
    (nextFrame w).particles.map (fun p => p.element) = w.particles.map (fun p => p.element) := by
  unfold nextFrame
  split
  · rfl
  · exact fireFrame_elements _ _

theorem nextFrame_iterate_nextElem (n : Nat) (w : World) :
    (nextFrame^[n] w).nextElem = w.nextElem := by
  induction n with
  | zero => rfl
  | succ k ih => rw [Function.iterate_succ_apply', nextFrame_nextElem, ih]

theorem nextFrame_iterate_explosionTriggered (n : Nat) (w : World) :
    (nextFrame^[n] w).explosionTriggered = w.explosionTriggered := by
  induction n with
  | zero => rfl
  | succ k ih => rw [Function.iterate_succ_apply', nextFrame_explosionTriggered, ih]

theorem nextFrame_iterate_elements (n : Nat) (w : World) :
    (nextFrame^[n] w).particles.map (fun p => p.element)
      = w.particles.map (fun p => p.element) := by
  induction n with
  | zero => rfl
  | succ k ih => rw [Function.iterate_succ_apply', nextFrame_elements, ih]

theorem settling_stable {loop : Nat} {P : List Particle} {H : ℚ} {k : Nat} {w : World}
    (hs : Settling loop P H k w) : nextFrame w = w := by
  unfold nextFrame
  cases ha : w.animationId with
  | none => rfl
  | some h =>
    simp only []
    unfold fireFrame
    have hn : w.frames.find? (fun f => decide (f.handle = h)) = none := by
      rw [List.find?_eq_none]
      intro f hf hfh
      have := hs.stale f hf
      rw [ha] at this
      simp at hfh
      exact this (by rw [hfh])
    rw [hn]

theorem getD_set_self (l : List Bool) (i : Nat) (hi : i < l.length) :
    (l.set i true).getD i false = true := by
  simp [List.getD_eq_getElem?_getD, hi]

theorem running_fire {loop : Nat} {P : List Particle} {H : ℚ} {k : Nat} {w : World}
    (hr : Running loop P H k w) :
    nextFrame w
      = animate loop { w with frames := w.frames.filter (fun g => g.handle ≠ w.handles) } := by
  have h0 : nextFrame w = fireFrame w.handles w := by
    unfold nextFrame
    split
    · rename_i hn
      rw [hr.anim] at hn
      cases hn
    · rename_i h hn
      rw [hr.anim] at hn
      cases hn
      rfl
  rw [h0]
  unfold fireFrame
  cases hfind : w.frames.find? (fun f => decide (f.handle = w.handles)) with
  | none =>
    rw [List.find?_eq_none] at hfind
    have := hfind _ hr.pend
    simp at this
  | some f =>
    have h1 := List.find?_some hfind
    have h2 := List.mem_of_find?_eq_some hfind
    simp at h1
    have h3 := (hr.frames_own f h2).mp h1
    simp only [h3]

theorem running_step {loop : Nat} {P : List Particle} {H : ℚ} {k : Nat} {w : World}
    (hr : Running loop P H k w) :
    ((∀ p ∈ P, H / 2 < (Particle.update^[k + 1] p).y) → Settling loop P H (k + 1) (nextFrame w))
    ∧ (¬ (∀ p ∈ P, H / 2 < (Particle.update^[k + 1] p).y)
        → Running loop P H (k + 1) (nextFrame w)) := by
  obtain ⟨c, hc, hH⟩ := hr.cont
  rw [running_fire hr]
  generalize hv : ({ w with frames := w.frames.filter (fun g => g.handle ≠ w.handles) } : World) = v
  have efin : v.finished = w.finished := by rw [← hv]
  have eparts : v.particles = w.particles := by rw [← hv]
  have econt : v.container = w.container := by rw [← hv]
  have ehandles : v.handles = w.handles := by rw [← hv]
  have etimers : v.timers = w.timers := by rw [← hv]
  have eanim : v.animationId = w.animationId := by rw [← hv]
  have eframes : v.frames = w.frames.filter (fun g => g.handle ≠ w.handles) := by rw [← hv]
  have hfin : v.finished.getD loop false = false := by rw [efin]; exact hr.fin
  have hparts : (tick v).particles = P.map (Particle.update^[k + 1]) := by
    rw [tick_particles, eparts, hr.parts, List.map_map]
    apply List.map_congr_left
    intro p _
    simp only [Function.comp, Function.iterate_succ_apply']
  have hset : settled (tick v) = true ↔ ∀ p ∈ P, H / 2 < (Particle.update^[k + 1] p).y := by
    have := settled_tick_iterate 1 v c (by rw [econt, hc])
    simp only [Function.iterate_one] at this
    rw [this, eparts, hr.parts, hH]
    simp [Function.iterate_succ_apply']
  have hcont : ∃ d, (tick v).container = some d ∧ d.offsetHeight = H := by
    rw [tick_container, econt, hc]
    exact ⟨_, rfl, hH⟩
  have hmem : ∀ f ∈ v.frames, f ∈ w.frames ∧ f.handle ≠ w.handles := by
    intro f hf
    rw [eframes] at hf
    simpa using hf
  constructor
  · intro hall
    rw [animate_of_settled loop v hfin (hset.mpr hall)]
    refine ⟨?_, hparts, hcont, ?_, ?_, ?_, ?_, ?_⟩
    · show (v.finished.set loop true).getD loop false = true
      exact getD_set_self _ _ (by rw [efin]; exact hr.inb)
    · intro f hf
      obtain ⟨h1, h2⟩ := hmem f hf
      intro hl
      exact h2 ((hr.frames_own f h1).mpr hl)
    · intro f hf
      obtain ⟨h1, h2⟩ := hmem f hf
      show some f.handle ≠ v.animationId
      rw [eanim, hr.anim]
      intro he
      exact h2 (Option.some.inj he)
    · show _ ∈ v.timers ++ _
      rw [ehandles]
      simp
    · intro t ht
      change t ∈ v.timers ++ _ at ht
      show t.handle ≤ v.handles + 1
      rw [etimers, List.mem_append, List.mem_singleton] at ht
      rcases ht with ht | rfl
      · have := hr.timers_handle t ht
        omega
      · exact le_refl _
    · intro t ht
      change t ∈ v.timers ++ _ at ht
      show t.handle = v.handles + 1 → _
      rw [etimers, List.mem_append, List.mem_singleton] at ht
      rcases ht with ht | rfl
      · intro he
        have := hr.timers_handle t ht
        omega
      · intro _; rfl
  · intro hall
    have hs : settled (tick v) = false := by
      rw [← Bool.not_eq_true]
      exact fun h => hall (hset.mp h)
    rw [animate_of_unsettled loop v hfin hs]
    refine ⟨hfin, ?_, hparts, hcont, rfl, ?_, ?_, ?_, ?_, ?_⟩
    · show loop < v.finished.length
      rw [efin]; exact hr.inb
    · show _ ∈ v.frames ++ _
      simp
    · intro f hf
      change f ∈ v.frames ++ _ at hf
      rw [List.mem_append, List.mem_singleton] at hf
      rcases hf with hf | rfl
      · exact hr.frames_pos f (hmem f hf).1
      · show 1 ≤ v.handles + 1
        omega
    · intro f hf
      change f ∈ v.frames ++ _ at hf
      show f.handle ≤ v.handles + 1
      rw [List.mem_append, List.mem_singleton] at hf
      rcases hf with hf | rfl
      · have := hr.frames_handle f (hmem f hf).1
        omega
      · exact le_refl _
    · intro f hf
      change f ∈ v.frames ++ _ at hf
      show f.handle = v.handles + 1 ↔ f.loop = loop
      rw [List.mem_append, List.mem_singleton] at hf
      rcases hf with hf | rfl
      · obtain ⟨h1, h2⟩ := hmem f hf
        have h3 := hr.frames_handle f h1
        have h4 := hr.frames_own f h1
        constructor
        · intro he
          omega
        · intro hl
          exact absurd (h4.mpr hl) h2
      · exact ⟨fun _ => rfl, fun _ => rfl⟩
    · intro t ht
      change t ∈ v.timers at ht
      show t.handle ≤ v.handles + 1
      rw [etimers] at ht
      have := hr.timers_handle t ht
      omega

/-! ## explode -/

theorem explode_eq (rng : Nat → ℚ) (w : World) :
    explode rng false w
      = animate (createParticles rng { w with explosionTriggered := true }).finished.length
          (beforeAnimate rng w) := by
  simp only [explode, beforeAnimate]
  rfl

theorem cleanup_animationId_cases (w : World) :
    (cleanupPreviousExplosion w).animationId = none
      ∨ (cleanupPreviousExplosion w).animationId = some 0 := by
  rw [cleanup_animationId]
  cases w.animationId with
  | none => left; rfl
  | some h =>
    by_cases hz : h = 0
    · right; simp [hz]
    · left; simp [hz]

theorem cleanup_frames_subset (w : World) :
    ∀ f ∈ (cleanupPreviousExplosion w).frames, f ∈ w.frames := by
  intro f hf
  rw [cleanup_frames] at hf
  cases ha : w.animationId with
  | none => simpa [ha] using hf
  | some h =>
    by_cases hz : h = 0
    · simpa [ha, hz] using hf
    · simp only [ha, hz, ne_eq, not_false_eq_true, if_true, List.mem_filter] at hf
      exact hf.1

theorem beforeAnimate_prepared (rng : Nat → ℚ) (w : World) (c : Container)
    (hc : w.container = some c) : Prepared rng w c (beforeAnimate rng w) := by
  have hc' : ({ w with explosionTriggered := true } : World).container = some c := hc
  unfold beforeAnimate
  rw [createParticles_eq rng _ c hc']
  refine ⟨?_, rfl, rfl, ?_, ?_, ?_, ?_, rfl, ?_, ?_, ?_⟩
  · show (cleanupPreviousExplosion _).finished ++ _ = _
    rw [cleanup_finished]
  · show (cleanupPreviousExplosion _).handles = _
    rw [cleanup_handles]
  · show (cleanupPreviousExplosion _).timers = _
    rw [cleanup_timers]
  · intro f hf
    exact cleanup_frames_subset { w with explosionTriggered := true } f hf
  · exact cleanup_animationId_cases { w with explosionTriggered := true }
  · show (cleanupPreviousExplosion _).explosionTriggered = _
    rw [cleanup_explosionTriggered]
  · show (cleanupPreviousExplosion _).footer = _
    rcases w with ⟨_ | c, ft, vh, et, ps, _ | h, fin, fr, tm, ct, ls, hd, ne, rp⟩ <;>
      simp only [cleanupPreviousExplosion, cancelAnimationFrame] <;>
      first | rfl | (by_cases hz : h = 0 <;> simp [hz])
  · show (cleanupPreviousExplosion _).viewportHeight = _
    rcases w with ⟨_ | c, ft, vh, et, ps, _ | h, fin, fr, tm, ct, ls, hd, ne, rp⟩ <;>
      simp only [cleanupPreviousExplosion, cancelAnimationFrame] <;>
      first | rfl | (by_cases hz : h = 0 <;> simp [hz])

theorem explode_eq_animate (rng : Nat → ℚ) (w : World) (c : Container)
    (hc : w.container = some c) :
    explode rng false w = animate w.finished.length (beforeAnimate rng w) := by
  rw [explode_eq]
  have hc' : ({ w with explosionTriggered := true } : World).container = some c := hc
  rw [createParticles_eq rng _ c hc']
  show animate (cleanupPreviousExplosion _).finished.length _ = _
  rw [cleanup_finished]

theorem getD_append_self (l : List Bool) : (l ++ [false]).getD l.length false = false := by
  simp [List.getD_eq_getElem?_getD]

theorem prepared_animate {rng : Nat → ℚ} {w v : World} {c : Container}
    (hp : Prepared rng w c v) (hwf : WF w) :
    ((∀ p ∈ newField rng c.offsetWidth w, c.offsetHeight / 2 < (Particle.update^[1] p).y)
        → Settling w.finished.length (newField rng c.offsetWidth w) c.offsetHeight 1
            (animate w.finished.length v))
    ∧ (¬ (∀ p ∈ newField rng c.offsetWidth w, c.offsetHeight / 2 < (Particle.update^[1] p).y)
        → Running w.finished.length (newField rng c.offsetWidth w) c.offsetHeight 1
            (animate w.finished.length v)) := by
  have hfin : v.finished.getD w.finished.length false = false := by
    rw [hp.finished]; exact getD_append_self _
  have hinb : w.finished.length < v.finished.length := by
    rw [hp.finished]; simp
  have hparts : (tick v).particles
      = (newField rng c.offsetWidth w).map (Particle.update^[1]) := by
    rw [tick_particles, hp.particles]
    rfl
  have hset : settled (tick v) = true
      ↔ ∀ p ∈ newField rng c.offsetWidth w, c.offsetHeight / 2 < (Particle.update^[1] p).y := by
    have := settled_tick_iterate 1 v _ hp.container
    simp only [Function.iterate_one] at this
    rw [this, hp.particles]
    simp
  have hcont : ∃ d, (tick v).container = some d ∧ d.offsetHeight = c.offsetHeight := by
    rw [tick_container, hp.container]
    exact ⟨_, rfl, rfl⟩
  constructor
  · intro hall
    rw [animate_of_settled _ v hfin (hset.mpr hall)]
    refine ⟨?_, hparts, hcont, ?_, ?_, ?_, ?_, ?_⟩
    · show (v.finished.set w.finished.length true).getD w.finished.length false = true
      exact getD_set_self _ _ hinb
    · intro f hf
      have := hwf.frames_loop f (hp.frames f hf)
      omega
    · intro f hf
      have h1 := hwf.frames_pos f (hp.frames f hf)
      show some f.handle ≠ v.animationId
      rcases hp.animationId with h | h <;> rw [h]
      · simp
      · intro he
        have := Option.some.inj he
        omega
    · show _ ∈ v.timers ++ _
      simp
    · intro t ht
      change t ∈ v.timers ++ _ at ht
      show t.handle ≤ v.handles + 1
      rw [hp.timers, List.mem_append, List.mem_singleton] at ht
      rw [hp.handles]
      rcases ht with ht | rfl
      · have := hwf.timers_handle t ht
        omega
      · rw [hp.handles]
    · intro t ht
      change t ∈ v.timers ++ _ at ht
      show t.handle = v.handles + 1 → _
      rw [hp.timers, List.mem_append, List.mem_singleton] at ht
      rw [hp.handles]
      rcases ht with ht | rfl
      · intro he
        have := hwf.timers_handle t ht
        omega
      · intro _; rfl
  · intro hall
    have hs : settled (tick v) = false := by
      rw [← Bool.not_eq_true]
      exact fun h => hall (hset.mp h)
    rw [animate_of_unsettled _ v hfin hs]
    refine ⟨hfin, hinb, hparts, hcont, rfl, ?_, ?_, ?_, ?_, ?_⟩
    · show _ ∈ v.frames ++ _
      simp
    · intro f hf
      change f ∈ v.frames ++ _ at hf
      rw [List.mem_append, List.mem_singleton] at hf
      rcases hf with hf | rfl
      · exact hwf.frames_pos f (hp.frames f hf)
      · show 1 ≤ v.handles + 1
        omega
    · intro f hf
      change f ∈ v.frames ++ _ at hf
      show f.handle ≤ v.handles + 1
      rw [List.mem_append, List.mem_singleton] at hf
      rw [hp.handles]
      rcases hf with hf | rfl
      · have := hwf.frames_handle f (hp.frames f hf)
        omega
      · rw [hp.handles]
    · intro f hf
      change f ∈ v.frames ++ _ at hf
      show f.handle = v.handles + 1 ↔ f.loop = w.finished.length
      rw [List.mem_append, List.mem_singleton] at hf
      rw [hp.handles]
      rcases hf with hf | rfl
      · have h1 := hwf.frames_handle f (hp.frames f hf)
        have h2 := hwf.frames_loop f (hp.frames f hf)
        constructor
        · intro he; omega
        · intro hl; omega
      · rw [hp.handles]
        exact ⟨fun _ => rfl, fun _ => rfl⟩
    · intro t ht
      change t ∈ v.timers at ht
      show t.handle ≤ v.handles + 1
      rw [hp.timers] at ht
      rw [hp.handles]
      have := hwf.timers_handle t ht
      omega

/-- The loop state after `n` further frames, for a loop that has made `k`
ticks: it makes one tick per frame until the first tick that finds the field
settled, and then stays as it is. -/
theorem running_iterate {loop : Nat} {P : List Particle} {H : ℚ} (n : Nat) :
    ∀ {k : Nat} {w : World}, Running loop P H k w →
      (∃ j, k < j ∧ j ≤ k + n ∧ Settling loop P H j (nextFrame^[n] w)
          ∧ (∀ p ∈ P, H / 2 < (Particle.update^[j] p).y)
          ∧ ∀ i, k < i → i < j → ¬ ∀ p ∈ P, H / 2 < (Particle.update^[i] p).y)
      ∨ (Running loop P H (k + n) (nextFrame^[n] w)
          ∧ ∀ i, k < i → i ≤ k + n → ¬ ∀ p ∈ P, H / 2 < (Particle.update^[i] p).y) := by
  induction n with
  | zero =>
    intro k w hr
    right
    exact ⟨hr, fun i h1 h2 => by omega⟩
  | succ m ih =>
    intro k w hr
    rw [Function.iterate_succ_apply']
    rcases ih hr with ⟨j, h1, h2, hs, hj, hmin⟩ | ⟨hr', hmin⟩
    · left
      refine ⟨j, h1, by omega, ?_, hj, hmin⟩
      rw [settling_stable hs]
      exact hs
    · by_cases hall : ∀ p ∈ P, H / 2 < (Particle.update^[k + m + 1] p).y
      · left
        refine ⟨k + m + 1, by omega, by omega, (running_step hr').1 hall, hall, ?_⟩
        intro i hi1 hi2
        exact hmin i hi1 (by omega)
      · right
        refine ⟨(running_step hr').2 hall, ?_⟩
        intro i hi1 hi2
        by_cases hi : i = k + m + 1
        · rw [hi]; exact hall
        · exact hmin i hi1 (by omega)

theorem animate_finished_length (loop : Nat) (w : World) :
    (animate loop w).finished.length = w.finished.length := by
  unfold animate
  split
  · rfl
  · simp only []
    split
    · simp [setTimeout, tick]
    · rfl

theorem animate_children (loop : Nat) (w : World) :
    (animate loop w).container.map (fun c => c.children.map (fun e => e.id))
      = w.container.map (fun c => c.children.map (fun e => e.id)) := by
  have ht : (tick w).container.map (fun c => c.children.map (fun e => e.id))
      = w.container.map (fun c => c.children.map (fun e => e.id)) := by
    rw [tick_container]
    cases w.container with
    | none => rfl
    | some c => simp [applyAllStyles_ids]
  unfold animate
  split
  · rfl
  · simp only []
    split <;> exact ht

theorem explode_finished_length (rng : Nat → ℚ) (w : World) (c : Container)
    (hc : w.container = some c) :
    (explode rng false w).finished.length = w.finished.length + 1 := by
  rw [explode_eq_animate rng w c hc, animate_finished_length,
    (beforeAnimate_prepared rng w c hc).finished]
  simp

theorem explode_nextElem (rng : Nat → ℚ) (w : World) (c : Container)
    (hc : w.container = some c) : (explode rng false w).nextElem = w.nextElem + 15 := by
  rw [explode_eq_animate rng w c hc, animate_nextElem,
    (beforeAnimate_prepared rng w c hc).nextElem]

theorem explode_explosionTriggered (rng : Nat → ℚ) (w : World) (c : Container)
    (hc : w.container = some c) : (explode rng false w).explosionTriggered = true := by
  rw [explode_eq_animate rng w c hc, animate_explosionTriggered,
    (beforeAnimate_prepared rng w c hc).explosionTriggered]

theorem explode_elements (rng : Nat → ℚ) (w : World) (c : Container)
    (hc : w.container = some c) :
    (explode rng false w).particles.map (fun p => p.element) = List.range' w.nextElem 15 := by
  rw [explode_eq_animate rng w c hc, animate_elements,
    (beforeAnimate_prepared rng w c hc).particles, newField_elements]

theorem explode_children (rng : Nat → ℚ) (w : World) (c : Container)
    (hc : w.container = some c) :
    ∃ d, (explode rng false w).container = some d
      ∧ d.children.map (fun e => e.id) = List.range' w.nextElem 15 := by
  have h := animate_children w.finished.length (beforeAnimate rng w)
  rw [← explode_eq_animate rng w c hc, (beforeAnimate_prepared rng w c hc).container] at h
  cases hd : (explode rng false w).container with
  | none => rw [hd] at h; cases h
  | some d =>
    rw [hd] at h
    refine ⟨d, rfl, ?_⟩
    have h' := Option.some.inj h
    simp only [applyAllStyles_ids, createImgs_ids, imagePaths_length] at h'
    exact h'

theorem checkFooterPosition_eq (rng : Nat → ℚ) (explosionTriggered : Bool) (w : World)
    (c : Container) (r : Rect) (hc : w.container = some c) (hf : w.footer = some r) :
    checkFooterPosition rng explosionTriggered w
      = if explosionTriggered = false ∧ r.top ≤ w.viewportHeight - r.height * 0.5
        then explode rng false w else w := by
  unfold checkFooterPosition
  simp only [hc, hf]
  cases explosionTriggered <;> simp

theorem rngHalf_unit : ∀ i, UnitDraw (rngHalf i) := by
  intro i
  constructor <;> norm_num [rngHalf]

theorem initial_WF (cw ch vh : ℚ) : WF (initial cw ch vh) := by
  constructor <;> intro x hx <;> simp [initial] at hx

theorem settling_iterate_stable {loop : Nat} {P : List Particle} {H : ℚ} {k : Nat} {w : World}
    (hs : Settling loop P H k w) (n : Nat) : nextFrame^[n] w = w :=
  Function.iterate_fixed (settling_stable hs) n

/-- Where the loop started by `explode` stands after `n` frames. -/
theorem explode_run (rng : Nat → ℚ) (w : World) (c : Container) (hc : w.container = some c)
    (hwf : WF w) (n : Nat) :
    (∃ j, 1 ≤ j ∧ j ≤ 1 + n
        ∧ Settling w.finished.length (newField rng c.offsetWidth w) c.offsetHeight j
            (nextFrame^[n] (explode rng false w))
        ∧ (∀ p ∈ newField rng c.offsetWidth w, c.offsetHeight / 2 < (Particle.update^[j] p).y)
        ∧ ∀ i, 1 ≤ i → i < j →
            ¬ ∀ p ∈ newField rng c.offsetWidth w, c.offsetHeight / 2 < (Particle.update^[i] p).y)
    ∨ (Running w.finished.length (newField rng c.offsetWidth w) c.offsetHeight (1 + n)
          (nextFrame^[n] (explode rng false w))
        ∧ ∀ i, 1 ≤ i → i ≤ 1 + n →
            ¬ ∀ p ∈ newField rng c.offsetWidth w, c.offsetHeight / 2 < (Particle.update^[i] p).y) := by
  have hp := beforeAnimate_prepared rng w c hc
  have hstart := prepared_animate hp hwf
  rw [← explode_eq_animate rng w c hc] at hstart
  by_cases h1 : ∀ p ∈ newField rng c.offsetWidth w, c.offsetHeight / 2 < (Particle.update^[1] p).y
  · left
    have hs := hstart.1 h1
    refine ⟨1, le_refl _, by omega, ?_, h1, fun i hi1 hi2 => by omega⟩
    rw [settling_iterate_stable hs]
    exact hs
  · have hrun := hstart.2 h1
    rcases running_iterate n hrun with ⟨j, hj1, hj2, hs, hall, hmin⟩ | ⟨hr, hmin⟩
    · left
      refine ⟨j, by omega, hj2, hs, hall, ?_⟩
      intro i hi1 hi2
      by_cases hi : i = 1
      · rw [hi]; exact h1
      · exact hmin i (by omega) hi2
    · right
      refine ⟨hr, ?_⟩
      intro i hi1 hi2
      by_cases hi : i = 1
      · rw [hi]; exact h1
      · exact hmin i (by omega) hi2

theorem settling_fire {loop : Nat} {P : List Particle} {H : ℚ} {k : Nat} {w : World}
    (hs : Settling loop P H k w) (rng : Nat → ℚ) :
    fireTimeout rng w.handles w
      = resetCallback { w with timers := w.timers.filter (fun u => u.handle ≠ w.handles) } := by
  unfold fireTimeout
  cases hfind : w.timers.find? (fun t => decide (t.handle = w.handles)) with
  | none =>
    rw [List.find?_eq_none] at hfind
    have := hfind _ hs.reset
    simp at this
  | some t =>
    have h1 := List.find?_some hfind
    have h2 := List.mem_of_find?_eq_some hfind
    simp at h1
    have h3 := hs.timers_own t h2 h1
    simp only [h3, runCallback]

theorem resetCallback_particles (w : World) : (resetCallback w).particles = [] := rfl

theorem resetCallback_explosionTriggered (w : World) :
    (resetCallback w).explosionTriggered = false := rfl

theorem resetCallback_nextElem (w : World) : (resetCallback w).nextElem = w.nextElem := by
  show (cleanupPreviousExplosion w).nextElem = _
  rw [cleanup_nextElem]

theorem resetCallback_container (w : World) :
    (resetCallback w).container = w.container.map (fun c => { c with children := [] }) := by
  show (cleanupPreviousExplosion w).container = _
  rw [cleanup_container]

/-- The first tick that finds the field settled: the loop started by `explode`
is still running after fewer than `n` frames and is settling after `n`. -/
theorem explode_first_settle (rng : Nat → ℚ) (w : World) (c : Container)
    (hc : w.container = some c) (hr : ∀ i, UnitDraw (rng i)) (hwf : WF w) :
    ∃ n, (∀ m, m < n →
          Running w.finished.length (newField rng c.offsetWidth w) c.offsetHeight (1 + m)
            (nextFrame^[m] (explode rng false w)))
      ∧ Settling w.finished.length (newField rng c.offsetWidth w) c.offsetHeight (1 + n)
          (nextFrame^[n] (explode rng false w)) := by
  have hall : ∀ p ∈ newField rng c.offsetWidth w,
      c.offsetHeight / 2 < (Particle.update^[settleBound c.offsetHeight] p).y := by
    intro p hp
    exact launched_below p (newField_launched rng hr c.offsetWidth w p hp) _
  have hN : 1 + (settleBound c.offsetHeight - 1) = settleBound c.offsetHeight := by
    unfold settleBound; omega
  rcases explode_run rng w c hc hwf (settleBound c.offsetHeight - 1) with
    ⟨j, hj1, _, _, hj, hmin⟩ | ⟨_, hmin⟩
  · refine ⟨j - 1, ?_, ?_⟩
    · intro m hm
      rcases explode_run rng w c hc hwf m with ⟨i, hi1, hi2, _, hi, _⟩ | ⟨hrun, _⟩
      · exact absurd hi (hmin i hi1 (by omega))
      · exact hrun
    · rcases explode_run rng w c hc hwf (j - 1) with ⟨i, hi1, hi2, hs, hi, _⟩ | ⟨_, hmin'⟩
      · have hij : i = j := by
          by_contra hne
          exact hmin i hi1 (by omega) hi
        have h1 : 1 + (j - 1) = i := by omega
        rw [h1]
        exact hs
      · exact absurd hj (hmin' j hj1 (by omega))
  · exact absurd hall (hmin _ (by omega) (by omega))

/-! ## Reachable worlds -/

theorem cleanup_listening (w : World) : (cleanupPreviousExplosion w).listening = w.listening := by
  rcases w with ⟨_ | c, ft, vh, et, ps, _ | h, fin, fr, tm, ct, ls, hd, ne, rp⟩ <;>
    simp only [cleanupPreviousExplosion, cancelAnimationFrame] <;>
    first | rfl | (by_cases hz : h = 0 <;> simp [hz])

theorem cleanup_of_inv {w : World} (hi : Inv w) :
    (cleanupPreviousExplosion w).frames = [] ∧ (cleanupPreviousExplosion w).animationId = none := by
  rw [cleanup_frames, cleanup_animationId]
  cases ha : w.animationId with
  | none =>
    refine ⟨?_, rfl⟩
    show w.frames = []
    rw [List.eq_nil_iff_forall_not_mem]
    intro f hf
    have := hi.frames_anim f hf
    rw [ha] at this
    cases this
  | some h =>
    have hz : h ≠ 0 := by
      intro hz
      apply hi.anim_pos
      rw [ha, hz]
    simp only [hz, ne_eq, not_false_eq_true, if_true, and_true]
    rw [List.filter_eq_nil_iff]
    intro f hf
    have := hi.frames_anim f hf
    rw [ha] at this
    have := Option.some.inj this
    simp [this]

theorem inv_cleanup {w : World} (hi : Inv w) : Inv (cleanupPreviousExplosion w) := by
  obtain ⟨hfr, han⟩ := cleanup_of_inv hi
  obtain ⟨c, hc, _⟩ := hi.cont
  refine ⟨?_, ?_, ?_, ?_, ?_⟩
  · rw [cleanup_listening]; exact hi.listening
  · refine ⟨{ c with children := [] }, ?_, ?_⟩
    · rw [cleanup_container, hc]; rfl
    · rw [cleanup_particles]; rfl
  · intro f hf
    rw [hfr] at hf
    cases hf
  · rw [han]; simp
  · intro _; exact han

theorem inv_tick_cont {w : World}
    (h : ∃ c, w.container = some c
      ∧ c.children.map (fun e => e.id) = w.particles.map (fun p => p.element)) :
    ∃ c, (tick w).container = some c
      ∧ c.children.map (fun e => e.id) = (tick w).particles.map (fun p => p.element) := by
  obtain ⟨c, hc, hids⟩ := h
  rw [tick_container, hc]
  refine ⟨_, rfl, ?_⟩
  show (applyAllStyles _ c.children).map _ = _
  rw [applyAllStyles_ids, hids, tick_particles, List.map_map]
  apply List.map_congr_left
  intro p _
  exact (update_element p).symm

/-- The call `animate()` keeps the invariant when no frame is pending and there
are particles. -/
theorem inv_animate {v : World} (hi : Inv v) (hfr : v.frames = []) (hps : v.particles ≠ [])
    (loop : Nat) : Inv (animate loop v) := by
  have htp : (tick v).particles ≠ [] := by
    rw [tick_particles]
    intro h
    exact hps (List.map_eq_nil_iff.mp h)
  unfold animate
  split
  · exact hi
  · simp only []
    split
    · refine ⟨hi.listening, inv_tick_cont hi.cont, ?_, hi.anim_pos, ?_⟩
      · intro f hf
        change f ∈ v.frames at hf
        rw [hfr] at hf
        cases hf
      · intro h
        exact absurd h htp
    · refine ⟨hi.listening, inv_tick_cont hi.cont, ?_, ?_, ?_⟩
      · intro f hf
        change f ∈ v.frames ++ _ at hf
        rw [hfr] at hf
        simp only [List.nil_append, List.mem_singleton] at hf
        rw [hf]
        rfl
      · show some (v.handles + 1) ≠ some 0
        simp
      · intro h
        exact absurd h htp

theorem inv_fireFrame {w : World} (hi : Inv w) (h : Nat) : Inv (fireFrame h w) := by
  unfold fireFrame
  cases hfind : w.frames.find? (fun f => decide (f.handle = h)) with
  | none => exact hi
  | some f =>
    have h1 := List.find?_some hfind
    have h2 := List.mem_of_find?_eq_some hfind
    simp at h1
    have ha : w.animationId = some h := by rw [← h1]; exact hi.frames_anim f h2
    have hfil : w.frames.filter (fun g => decide (g.handle ≠ h)) = [] := by
      rw [List.filter_eq_nil_iff]
      intro g hg
      have := hi.frames_anim g hg
      rw [ha] at this
      have := Option.some.inj this
      simp [this]
    apply inv_animate
    · refine ⟨hi.listening, hi.cont, ?_, hi.anim_pos, hi.idle⟩
      intro g hg
      change g ∈ w.frames.filter _ at hg
      rw [hfil] at hg
      cases hg
    · exact hfil
    · intro hp
      have := hi.idle hp
      rw [ha] at this
      cases this

theorem inv_explode {w : World} (hi : Inv w) (rng : Nat → ℚ) (explosionTriggered : Bool) :
    Inv (explode rng explosionTriggered w) := by
  cases explosionTriggered with
  | true => exact hi
  | false =>
    obtain ⟨c, hc, _⟩ := hi.cont
    rw [explode_eq_animate rng w c hc]
    have hi' : Inv { w with explosionTriggered := true } :=
      ⟨hi.listening, hi.cont, hi.frames_anim, hi.anim_pos, hi.idle⟩
    obtain ⟨hfr, han⟩ := cleanup_of_inv hi'
    have hc' : ({ w with explosionTriggered := true } : World).container = some c := hc
    have hps : (beforeAnimate rng w).particles ≠ [] := by
      rw [(beforeAnimate_prepared rng w c hc).particles]
      intro h
      have := newField_length rng c.offsetWidth w
      rw [h] at this
      cases this
    apply inv_animate _ _ hps
    · refine ⟨?_, ?_, ?_, ?_, ?_⟩
      · unfold beforeAnimate
        rw [createParticles_eq rng _ c hc']
        show (cleanupPreviousExplosion _).listening = _
        rw [cleanup_listening]
        exact hi.listening
      · refine ⟨_, (beforeAnimate_prepared rng w c hc).container, ?_⟩
        rw [(beforeAnimate_prepared rng w c hc).particles, newField_elements]
        simp [applyAllStyles_ids, createImgs_ids, imagePaths_length]
      · intro f hf
        unfold beforeAnimate at hf
        rw [createParticles_eq rng _ c hc'] at hf
        change f ∈ (cleanupPreviousExplosion _).frames at hf
        rw [hfr] at hf
        cases hf
      · unfold beforeAnimate
        rw [createParticles_eq rng _ c hc']
        show (cleanupPreviousExplosion _).animationId ≠ _
        rw [han]
        simp
      · intro h
        exact absurd h hps
    · unfold beforeAnimate
      rw [createParticles_eq rng _ c hc']
      exact hfr

theorem inv_checkFooterPosition {w : World} (hi : Inv w) (rng : Nat → ℚ)
    (explosionTriggered : Bool) : Inv (checkFooterPosition rng explosionTriggered w) := by
  unfold checkFooterPosition
  split
  · split
    · exact inv_explode hi rng explosionTriggered
    · exact hi
  · exact hi

theorem inv_fireTimeout {w : World} (hi : Inv w) (rng : Nat → ℚ) (h : Nat) :
    Inv (fireTimeout rng h w) := by
  unfold fireTimeout
  split
  · exact hi
  · rename_i t _
    have hi' : Inv { w with timers := w.timers.filter (fun u => u.handle ≠ h) } :=
      ⟨hi.listening, hi.cont, hi.frames_anim, hi.anim_pos, hi.idle⟩
    cases hcb : t.callback with
    | checkFooterPosition => exact inv_checkFooterPosition hi' rng _
    | reset =>
      have h2 := inv_cleanup hi'
      exact ⟨h2.listening, h2.cont, h2.frames_anim, h2.anim_pos, h2.idle⟩

theorem inv_handleScroll {w : World} (hi : Inv w) : Inv (handleScroll w) := by
  unfold handleScroll clearTimeout setTimeout
  cases w.checkTimeout <;>
    exact ⟨hi.listening, hi.cont, hi.frames_anim, hi.anim_pos, hi.idle⟩

theorem inv_step {w : World} (hi : Inv w) (rng : Nat → ℚ) (e : Event) : Inv (step rng w e) := by
  cases e with
  | layout r vh => exact ⟨hi.listening, hi.cont, hi.frames_anim, hi.anim_pos, hi.idle⟩
  | scroll =>
    show Inv (if w.listening then handleScroll w else w)
    split
    · exact inv_handleScroll hi
    · exact hi
  | resize =>
    show Inv (if w.listening then cleanupPreviousExplosion w else w)
    split
    · exact inv_cleanup hi
    · exact hi
  | timeout h => exact inv_fireTimeout hi rng h
  | frame h => exact inv_fireFrame hi h

theorem inv_run (rng : Nat → ℚ) (es : List Event) : ∀ {w : World}, Inv w → Inv (run rng w es) := by
  induction es with
  | nil => intro w hi; exact hi
  | cons e l ih =>
    intro w hi
    exact ih (inv_step hi rng e)

theorem inv_mount (documentFooter : Option Rect) (cw ch vh : ℚ) :
    Inv (mountEffect documentFooter (initial cw ch vh)) := by
  refine ⟨rfl, ⟨_, rfl, rfl⟩, ?_, ?_, fun _ => rfl⟩
  · intro f hf
    cases hf
  · show (none : Option Nat) ≠ some 0
    simp

theorem cleanup_idle {w : World} (hi : Inv w) (hp : w.particles = []) :
    cleanupPreviousExplosion w = w := by
  obtain ⟨c, hc, hids⟩ := hi.cont
  have ha := hi.idle hp
  rw [hp] at hids
  have hch : c.children = [] := List.map_eq_nil_iff.mp hids
  rcases w with ⟨co, ft, vh, et, ps, an, fin, fr, tm, ct, ls, hd, ne, rp⟩
  rcases c with ⟨cw, chh, chs⟩
  simp only at hc ha hp hch
  subst hc ha hp hch
  rfl

/-- The decision of one closure, in exact arithmetic: with the footer and the
container present, the `checkFooterPosition` of a render starts an explosion if
and only if the constant `explosionTriggered` of that render is false and
`top <= viewportHeight - height * 0.5`; otherwise it leaves the world as it
was.  The state cell `w.explosionTriggered` plays no part. -/
theorem closure_fires_iff (rng : Nat → ℚ) (explosionTriggered : Bool) (w : World)
    (c : Container) (r : Rect) (hc : w.container = some c) (hf : w.footer = some r) :
    (StartedExplosion w (checkFooterPosition rng explosionTriggered w)
        ↔ (explosionTriggered = false ∧ r.top ≤ w.viewportHeight - r.height * 0.5))
      ∧ (¬ (explosionTriggered = false ∧ r.top ≤ w.viewportHeight - r.height * 0.5)
          → checkFooterPosition rng explosionTriggered w = w) := by
  rw [checkFooterPosition_eq rng explosionTriggered w c r hc hf]
  by_cases hcond : explosionTriggered = false ∧ r.top ≤ w.viewportHeight - r.height * 0.5
  · rw [if_pos hcond]
    refine ⟨⟨fun _ => hcond, fun _ => ?_⟩, fun h => absurd hcond h⟩
    exact ⟨explode_finished_length rng w c hc, explode_nextElem rng w c hc,
      explode_elements rng w c hc⟩
  · rw [if_neg hcond]
    refine ⟨⟨fun h => ?_, fun h => absurd h hcond⟩, fun _ => rfl⟩
    have := h.1
    omega

theorem closure_fires_iff_scenario :
    StartedExplosion (scenario 700) (checkFooterPosition rngHalf false (scenario 700))
      ∧ checkFooterPosition rngHalf false (scenario 760) = scenario 760 :=
  ⟨(closure_fires_iff rngHalf false (scenario 700) ⟨1000, 0, []⟩ ⟨700, 100⟩
      rfl rfl).1.mpr ⟨rfl, by norm_num [scenario, initial]⟩,
    (closure_fires_iff rngHalf false (scenario 760) ⟨1000, 0, []⟩ ⟨760, 100⟩
      rfl rfl).2 (by norm_num [scenario, initial])⟩

/-! ## The claims -/

/-- C2: one `update` is the tick of the specification, in its order: gravity is
added to `vy` before friction scales it, the positions and the rotation advance
by the already updated velocities, and the element reference is untouched. -/
theorem update_is_tick (p : Particle) :
    p.update.vy = (p.vy + 0.25) * 0.99
      ∧ p.update.vx = p.vx * 0.99
      ∧ p.update.rotationSpeed = p.rotationSpeed * 0.99
      ∧ p.update.x = p.x + p.update.vx
      ∧ p.update.y = p.y + p.update.vy
      ∧ p.update.rotation = p.rotation + p.update.rotationSpeed
      ∧ p.update.element = p.element := by
  refine ⟨?_, ?_, ?_, update_x p, update_y p, update_rotation p, update_element p⟩
  · rw [update_vy]; norm_num
  · rw [update_vx]; norm_num
  · rw [update_rotationSpeed]; norm_num

/-- C5: whatever the container width, a particle constructed from draws in
`[0, 1)` has `vy` in `[-25, -15]`, `vx` in `[-10, 10]`, `rotationSpeed` in
`[-5, 5]` and `rotation = 0`. -/
theorem constructor_ranges (element : Nat) (containerWidth r1 r2 r3 r4 r5 : ℚ)
    (h3 : UnitDraw r3) (h4 : UnitDraw r4) (h5 : UnitDraw r5) :
    -25 ≤ (Particle.new element containerWidth r1 r2 r3 r4 r5).vy
      ∧ (Particle.new element containerWidth r1 r2 r3 r4 r5).vy ≤ -15
      ∧ -10 ≤ (Particle.new element containerWidth r1 r2 r3 r4 r5).vx
      ∧ (Particle.new element containerWidth r1 r2 r3 r4 r5).vx ≤ 10
      ∧ -5 ≤ (Particle.new element containerWidth r1 r2 r3 r4 r5).rotationSpeed
      ∧ (Particle.new element containerWidth r1 r2 r3 r4 r5).rotationSpeed ≤ 5
      ∧ (Particle.new element containerWidth r1 r2 r3 r4 r5).rotation = 0 := by
  obtain ⟨h3a, h3b⟩ := h3
  obtain ⟨h4a, h4b⟩ := h4
  obtain ⟨h5a, h5b⟩ := h5
  simp only [Particle.new, config]
  refine ⟨?_, ?_, ?_, ?_, ?_, ?_, trivial⟩ <;> linarith

theorem constructor_ranges_witness :
    UnitDraw (1 / 2) ∧ UnitDraw 0
      ∧ (Particle.new 0 1000 (1 / 2) (1 / 2) (1 / 2) 0 (1 / 2)).vy ≤ -15 :=
  ⟨⟨by norm_num, by norm_num⟩, ⟨le_refl _, by norm_num⟩,
    (constructor_ranges 0 1000 (1 / 2) (1 / 2) (1 / 2) 0 (1 / 2)
      ⟨by norm_num, by norm_num⟩ ⟨le_refl _, by norm_num⟩ ⟨by norm_num, by norm_num⟩).2.1⟩

/-- C9: for a particle constructed from draws in `[0, 1)` there is a tick index
`N` such that `y` does not increase on any update before `N` and strictly
increases on every update from `N` on; and a particle that moved down on one
update moves down on every later one. -/
theorem y_eventually_increasing (element : Nat) (containerWidth r1 r2 r3 r4 r5 : ℚ)
    (h4 : UnitDraw r4) :
    ∃ N : Nat,
      (∀ n, n < N →
        (Particle.update^[n + 1] (Particle.new element containerWidth r1 r2 r3 r4 r5)).y
          ≤ (Particle.update^[n] (Particle.new element containerWidth r1 r2 r3 r4 r5)).y)
      ∧ (∀ n, N ≤ n →
        (Particle.update^[n] (Particle.new element containerWidth r1 r2 r3 r4 r5)).y
          < (Particle.update^[n + 1] (Particle.new element containerWidth r1 r2 r3 r4 r5)).y)
      ∧ (∀ m n, m ≤ n →
        (Particle.update^[m] (Particle.new element containerWidth r1 r2 r3 r4 r5)).y
          < (Particle.update^[m + 1] (Particle.new element containerWidth r1 r2 r3 r4 r5)).y →
        (Particle.update^[n] (Particle.new element containerWidth r1 r2 r3 r4 r5)).y
          < (Particle.update^[n + 1] (Particle.new element containerWidth r1 r2 r3 r4 r5)).y) := by
  generalize hp : Particle.new element containerWidth r1 r2 r3 r4 r5 = p
  have hvy : -25 ≤ p.vy := by
    rw [← hp]
    obtain ⟨h4a, h4b⟩ := h4
    simp only [Particle.new, config]
    linarith
  have hstep : ∀ n, (Particle.update^[n + 1] p).y
      = (Particle.update^[n] p).y + (Particle.update^[n + 1] p).vy := by
    intro n
    rw [Function.iterate_succ_apply', update_y]
  have hex : ∃ n, 0 < (Particle.update^[n + 1] p).vy := by
    refine ⟨102, ?_⟩
    have := vy_ge_late p hvy (102 + 1) (by omega)
    linarith
  refine ⟨Nat.find hex, ?_, ?_, ?_⟩
  · intro n hn
    have := Nat.find_min hex hn
    rw [hstep]
    linarith
  · intro n hn
    have h1 := Nat.find_spec hex
    have h2 := vy_pos_mono p (Nat.succ_le_succ hn) h1
    rw [hstep]
    linarith
  · intro m n hmn hm
    rw [hstep] at hm
    have h1 : 0 < (Particle.update^[m + 1] p).vy := by linarith
    have h2 := vy_pos_mono p (Nat.succ_le_succ hmn) h1
    rw [hstep]
    linarith

theorem y_eventually_increasing_witness :
    UnitDraw (1 / 2) ∧ ∃ N : Nat,
      (∀ n, n < N →
        (Particle.update^[n + 1] (Particle.new 0 1000 (1 / 2) (1 / 2) (1 / 2) (1 / 2) (1 / 2))).y
          ≤ (Particle.update^[n] (Particle.new 0 1000 (1 / 2) (1 / 2) (1 / 2) (1 / 2) (1 / 2))).y)
      ∧ (∀ n, N ≤ n →
        (Particle.update^[n] (Particle.new 0 1000 (1 / 2) (1 / 2) (1 / 2) (1 / 2) (1 / 2))).y
          < (Particle.update^[n + 1]
              (Particle.new 0 1000 (1 / 2) (1 / 2) (1 / 2) (1 / 2) (1 / 2))).y) :=
  ⟨⟨by norm_num, by norm_num⟩,
    (y_eventually_increasing 0 1000 (1 / 2) (1 / 2) (1 / 2) (1 / 2) (1 / 2)
      ⟨by norm_num, by norm_num⟩).imp (fun _ h => ⟨h.1, h.2.1⟩)⟩

/-- C3: the settle test is monotonic along the trajectory of a field made by
`createParticles`: for a container of height `h ≥ 0` and draws in `[0, 1)`, if
the field is settled after `n` ticks it is settled after `n + 1` ticks. -/
theorem settled_monotone (rng : Nat → ℚ) (w : World) (c : Container)
    (hc : w.container = some c) (hh : 0 ≤ c.offsetHeight) (hr : ∀ i, UnitDraw (rng i))
    (n : Nat) (hs : settled (tick^[n] (createParticles rng w)) = true) :
    settled (tick^[n + 1] (createParticles rng w)) = true := by
  have hcp := createParticles_eq rng w c hc
  have hcont : (createParticles rng w).container = some ⟨c.offsetWidth, c.offsetHeight,
      applyAllStyles (newField rng c.offsetWidth w) (createImgs w.nextElem imagePaths)⟩ := by
    rw [hcp]
  have hparts : (createParticles rng w).particles = newField rng c.offsetWidth w := by
    rw [hcp]
  rw [settled_tick_iterate _ _ _ hcont, hparts] at hs ⊢
  intro p hp
  have hl := newField_launched rng hr c.offsetWidth w p hp
  refine y_gt_step p _ ?_ n (hs p hp)
  have := hl.y_neg
  show p.y ≤ c.offsetHeight / 2
  linarith

theorem settled_monotone_witness :
    (initial 1000 0 800).container = some ⟨1000, 0, []⟩ ∧ (0 : ℚ) ≤ 0
      ∧ (∀ i, UnitDraw (rngHalf i))
      ∧ settled (tick^[133] (createParticles rngHalf (initial 1000 0 800))) = true
      ∧ settled (tick^[133 + 1] (createParticles rngHalf (initial 1000 0 800))) = true :=
  ⟨rfl, le_refl _, rngHalf_unit, by decide!,
    settled_monotone rngHalf (initial 1000 0 800) ⟨1000, 0, []⟩ rfl (le_refl _) rngHalf_unit 133
      (by decide!)⟩

/-- C10: for every container height `h` there is a tick count `N` such that,
whatever the container width and the draws in `[0, 1)`, every particle of the
field has `y > h / 2` after `N` ticks, and the loop started by `explode` has,
after its first tick and `N - 1` frames, set `finished`, no frame pending and
its reset scheduled with delay 1500. -/
theorem loop_reaches_settle (h : ℚ) :
    ∃ N : Nat, 1 ≤ N ∧ ∀ (rng : Nat → ℚ) (w : World) (c : Container),
      w.container = some c → c.offsetHeight = h → (∀ i, UnitDraw (rng i)) → WF w →
      settled (tick^[N] (createParticles rng w)) = true
        ∧ (nextFrame^[N - 1] (explode rng false w)).finished.getD w.finished.length false = true
        ∧ (∀ f ∈ (nextFrame^[N - 1] (explode rng false w)).frames, f.loop ≠ w.finished.length)
        ∧ ⟨(nextFrame^[N - 1] (explode rng false w)).handles, 1500, Callback.reset⟩
            ∈ (nextFrame^[N - 1] (explode rng false w)).timers := by
  refine ⟨settleBound h, by unfold settleBound; omega, ?_⟩
  intro rng w c hc hH hr hwf
  have hall : ∀ p ∈ newField rng c.offsetWidth w,
      c.offsetHeight / 2 < (Particle.update^[settleBound h] p).y := by
    intro p hp
    rw [hH]
    exact launched_below p (newField_launched rng hr c.offsetWidth w p hp) h
  constructor
  · have hcp := createParticles_eq rng w c hc
    have hcont : (createParticles rng w).container = some ⟨c.offsetWidth, c.offsetHeight,
        applyAllStyles (newField rng c.offsetWidth w) (createImgs w.nextElem imagePaths)⟩ := by
      rw [hcp]
    have hparts : (createParticles rng w).particles = newField rng c.offsetWidth w := by
      rw [hcp]
    rw [settled_tick_iterate _ _ _ hcont, hparts]
    exact hall
  · have hN : 1 + (settleBound h - 1) = settleBound h := by unfold settleBound; omega
    rcases explode_run rng w c hc hwf (settleBound h - 1) with ⟨j, _, _, hs, _, _⟩ | ⟨_, hmin⟩
    · exact ⟨hs.fin, hs.quiet, hs.reset⟩
    · exact absurd hall (hmin (settleBound h) (by omega) (by omega))

theorem loop_reaches_settle_witness :
    ∃ N : Nat, 1 ≤ N ∧ settled (tick^[N] (createParticles rngHalf (initial 1000 0 800))) = true
      ∧ (nextFrame^[N - 1] (explode rngHalf false (initial 1000 0 800))).finished = [true] := by
  obtain ⟨N, h1, h⟩ := loop_reaches_settle 0
  have h2 := h rngHalf (initial 1000 0 800) ⟨1000, 0, []⟩ rfl rfl rngHalf_unit (initial_WF _ _ _)
  refine ⟨N, h1, h2.1, ?_⟩
  have h3 := h2.2.1
  have h4 := explode_finished_length rngHalf (initial 1000 0 800) ⟨1000, 0, []⟩ rfl
  have h5 : ∀ (n : Nat) (v : World), (nextFrame^[n] v).finished.length = v.finished.length := by
    intro n
    induction n with
    | zero => intro v; rfl
    | succ k ih =>
      intro v
      rw [Function.iterate_succ_apply, ih]
      unfold nextFrame
      split
      · rfl
      · unfold fireFrame
        split
        · rfl
        · rw [animate_finished_length]
  have h6 := h5 (N - 1) (explode rngHalf false (initial 1000 0 800))
  rw [h4] at h6
  generalize (nextFrame^[N - 1] (explode rngHalf false (initial 1000 0 800))).finished = l at h3 h6
  match l, h3, h6 with
  | [b], h3, _ =>
    simp [initial] at h3
    rw [h3]

/-- C1 (what the code does): in the world reached once the initial check has
started an explosion, the gate is not armed (`explosionTriggered` is true), the
footer's top is 700, its height 100 and the viewport height 800.  A closure
reading that value would leave the world alone, but the `checkFooterPosition`
the component registered starts an explosion there: it creates a second
`animate` loop and replaces the field by fifteen particles on the new elements
15 to 29. -/
theorem registered_check_ignores_gate :
    (run rngHalf mounted [Event.timeout 1]).explosionTriggered = true
      ∧ (run rngHalf mounted [Event.timeout 1]).footer = some ⟨700, 100⟩
      ∧ (run rngHalf mounted [Event.timeout 1]).viewportHeight = 800
      ∧ checkFooterPosition rngHalf (run rngHalf mounted [Event.timeout 1]).explosionTriggered
          (run rngHalf mounted [Event.timeout 1]) = run rngHalf mounted [Event.timeout 1]
      ∧ StartedExplosion (run rngHalf mounted [Event.timeout 1])
          (runCallback rngHalf Callback.checkFooterPosition (run rngHalf mounted [Event.timeout 1]))
      ∧ (runCallback rngHalf Callback.checkFooterPosition
          (run rngHalf mounted [Event.timeout 1])).finished = [false, false]
      ∧ (runCallback rngHalf Callback.checkFooterPosition
          (run rngHalf mounted [Event.timeout 1])).particles.map (fun p => p.element)
          = List.range' 15 15 := by
  unfold StartedExplosion
  decide!

/-- C7: from an armed gate with the container present, `explode` starts a loop
that is still running after fewer than `n` frames and finds the field settled
on the tick of frame `n`, for some `n`; when the reset scheduled on that tick
(delay 1500) fires, the particle list is empty and `explosionTriggered`
is false again; a following `explode` leaves fifteen particles, on fifteen
distinct elements, all created by that call and attached to the container, none
of them an element of the previous field. -/
theorem full_cycle (rng : Nat → ℚ) (w : World) (c : Container)
    (hc : w.container = some c) (hr : ∀ i, UnitDraw (rng i)) (hwf : WF w)
    (harmed : w.explosionTriggered = false) :
    ∃ n : Nat,
      let w1 := explode rng w.explosionTriggered w
      let w2 := nextFrame^[n] w1
      let w3 := fireTimeout rng w2.handles w2
      let w4 := explode rng w3.explosionTriggered w3
      (∀ m, m < n → (nextFrame^[m] w1).finished.getD w.finished.length false = false
          ∧ ⟨(nextFrame^[m] w1).handles, w.finished.length⟩ ∈ (nextFrame^[m] w1).frames)
      ∧ w2.finished.getD w.finished.length false = true
      ∧ ⟨w2.handles, 1500, Callback.reset⟩ ∈ w2.timers
      ∧ w3.particles = []
      ∧ w3.explosionTriggered = false
      ∧ w4.particles.length = 15
      ∧ (w4.particles.map (fun p => p.element)).Nodup
      ∧ (∀ p ∈ w4.particles, w3.nextElem ≤ p.element ∧ p.element < w4.nextElem
          ∧ ∃ d e, w4.container = some d ∧ e ∈ d.children ∧ e.id = p.element)
      ∧ (∀ p ∈ w4.particles, ∀ q ∈ w1.particles, p.element ≠ q.element) := by
  obtain ⟨n, hrun, hs⟩ := explode_first_settle rng w c hc hr hwf
  refine ⟨n, ?_⟩
  simp only [harmed]
  have h3 := settling_fire hs rng
  generalize hw2 : nextFrame^[n] (explode rng false w) = w2 at hs h3
  have hn2 : w2.nextElem = w.nextElem + 15 := by
    rw [← hw2, nextFrame_iterate_nextElem, explode_nextElem rng w c hc]
  generalize hw3 : fireTimeout rng w2.handles w2 = w3 at h3
  have e3 : w3.explosionTriggered = false := by rw [h3]; rfl
  have p3 : w3.particles = [] := by rw [h3]; rfl
  have n3 : w3.nextElem = w.nextElem + 15 := by
    rw [h3, resetCallback_nextElem]; exact hn2
  obtain ⟨c2, hc2, _⟩ := hs.cont
  have c3 : w3.container = some { c2 with children := [] } := by
    rw [h3, resetCallback_container]
    show Option.map _ w2.container = _
    rw [hc2]; rfl
  rw [e3]
  have hel := explode_elements rng w3 _ c3
  have hel1 := explode_elements rng w _ hc
  have hmem : ∀ p ∈ (explode rng false w3).particles,
      w3.nextElem ≤ p.element ∧ p.element < w3.nextElem + 15 := by
    intro p hp
    have : p.element ∈ (explode rng false w3).particles.map (fun p => p.element) :=
      List.mem_map_of_mem _ hp
    rw [hel, List.mem_range'_1] at this
    exact this
  refine ⟨fun m hm => ⟨(hrun m hm).fin, (hrun m hm).pend⟩, hs.fin, hs.reset, p3, rfl,
    ?_, ?_, ?_, ?_⟩
  · have := congrArg List.length hel
    simpa using this
  · rw [hel]
    exact List.nodup_range' _ _
  · intro p hp
    obtain ⟨h1, h2⟩ := hmem p hp
    refine ⟨h1, ?_, ?_⟩
    · rw [explode_nextElem rng w3 _ c3]; exact h2
    · obtain ⟨d, hd, hids⟩ := explode_children rng w3 _ c3
      have : p.element ∈ d.children.map (fun e => e.id) := by
        rw [hids, List.mem_range'_1]; exact ⟨h1, h2⟩
      obtain ⟨e, he, hid⟩ := List.mem_map.mp this
      exact ⟨d, e, hd, he, hid⟩
  · intro p hp q hq
    obtain ⟨h1, _⟩ := hmem p hp
    have : q.element ∈ (explode rng false w).particles.map (fun p => p.element) :=
      List.mem_map_of_mem _ hq
    rw [hel1, List.mem_range'_1] at this
    omega

theorem full_cycle_witness :
    (initial 1000 0 800).container = some ⟨1000, 0, []⟩ ∧ (∀ i, UnitDraw (rngHalf i))
      ∧ WF (initial 1000 0 800) ∧ (initial 1000 0 800).explosionTriggered = false
      ∧ ∃ n : Nat,
        (fireTimeout rngHalf (nextFrame^[n] (explode rngHalf false (initial 1000 0 800))).handles
          (nextFrame^[n] (explode rngHalf false (initial 1000 0 800)))).particles = [] :=
  ⟨rfl, rngHalf_unit, initial_WF _ _ _, rfl,
    (full_cycle rngHalf (initial 1000 0 800) ⟨1000, 0, []⟩ rfl rngHalf_unit (initial_WF _ _ _)
      rfl).imp (fun _ h => h.2.2.2.1)⟩

/-- C4 (what the code does): the closure registered by the mount effect reads
the first render's `explosionTriggered`.  After the initial check has started
an explosion (`explosionTriggered` is now true, the loop is running, no reset
has run), a scroll signal followed by its debounced check starts a second
explosion: the first frame is cancelled, the fifteen particles are replaced by
fifteen particles on new elements, and a second `animate` loop is running. -/
theorem mounted_handler_refires :
    (run rngHalf mounted [Event.timeout 1]).explosionTriggered = true
      ∧ (run rngHalf mounted [Event.timeout 1]).finished = [false]
      ∧ (run rngHalf mounted [Event.timeout 1]).frames = [⟨2, 0⟩]
      ∧ (run rngHalf mounted [Event.timeout 1]).timers = []
      ∧ (run rngHalf mounted [Event.timeout 1]).particles.map (fun p => p.element)
          = List.range' 0 15
      ∧ (run rngHalf mounted [Event.timeout 1, Event.scroll, Event.timeout 3]).finished
          = [false, false]
      ∧ (run rngHalf mounted [Event.timeout 1, Event.scroll, Event.timeout 3]).frames = [⟨4, 1⟩]
      ∧ (run rngHalf mounted [Event.timeout 1, Event.scroll, Event.timeout 3]).particles.map
          (fun p => p.element) = List.range' 15 15
      ∧ (run rngHalf mounted [Event.timeout 1, Event.scroll, Event.timeout 3]).nextElem = 30 := by
  decide!

/-- C6 (counterexample): in the settling world reached by `settleTrace` the
reset is pending with handle 134.  After the resize handler has run, that reset
is still pending, and when it fires it changes the world. -/
theorem resize_keeps_reset_pending :
    (run rngHalf mounted settleTrace).finished = [true]
      ∧ (run rngHalf mounted settleTrace).frames = []
      ∧ (run rngHalf mounted settleTrace).timers = [⟨134, 1500, Callback.reset⟩]
      ∧ (run rngHalf mounted (settleTrace ++ [Event.resize])).particles = []
      ∧ (run rngHalf mounted (settleTrace ++ [Event.resize])).timers
          = [⟨134, 1500, Callback.reset⟩]
      ∧ (run rngHalf mounted (settleTrace ++ [Event.resize])).explosionTriggered = true
      ∧ (run rngHalf mounted (settleTrace ++ [Event.resize, Event.timeout 134])).explosionTriggered
          = false := by
  decide!

/-- C6 (amended): in every world reached from the mounted component, after
`cleanupPreviousExplosion` the particle list is empty, the container has no
child element and no frame callback is pending; the pending timeouts, a delayed
reset among them, are left as they were.  When the particle list is already
empty the call changes nothing. -/
theorem cleanup_after_reachable (rng : Nat → ℚ) (documentFooter : Option Rect) (cw ch vh : ℚ)
    (es : List Event) :
    (cleanupPreviousExplosion
        (run rng (mountEffect documentFooter (initial cw ch vh)) es)).particles = []
      ∧ (∃ c, (cleanupPreviousExplosion
          (run rng (mountEffect documentFooter (initial cw ch vh)) es)).container = some c
          ∧ c.children = [])
      ∧ (cleanupPreviousExplosion
          (run rng (mountEffect documentFooter (initial cw ch vh)) es)).frames = []
      ∧ (cleanupPreviousExplosion
          (run rng (mountEffect documentFooter (initial cw ch vh)) es)).timers
          = (run rng (mountEffect documentFooter (initial cw ch vh)) es).timers
      ∧ ((run rng (mountEffect documentFooter (initial cw ch vh)) es).particles = []
          → cleanupPreviousExplosion (run rng (mountEffect documentFooter (initial cw ch vh)) es)
              = run rng (mountEffect documentFooter (initial cw ch vh)) es) := by
  have hi := inv_run rng es (inv_mount documentFooter cw ch vh)
  generalize run rng (mountEffect documentFooter (initial cw ch vh)) es = w at hi
  obtain ⟨c, hc, _⟩ := hi.cont
  refine ⟨rfl, ⟨{ c with children := [] }, ?_, rfl⟩, (cleanup_of_inv hi).1, cleanup_timers w,
    cleanup_idle hi⟩
  rw [cleanup_container, hc]
  rfl

theorem cleanup_after_reachable_witness :
    (run rngHalf mounted []).particles = []
      ∧ cleanupPreviousExplosion (run rngHalf mounted []) = run rngHalf mounted [] :=
  ⟨rfl, (cleanup_after_reachable rngHalf (some ⟨700, 100⟩) 1000 0 800 []).2.2.2.2 rfl⟩

/-- C8 (counterexample): after the initial check has started an explosion the
gate is not armed and the loop is running; after a resize signal the particle
list is empty but `explosionTriggered` is still true, and neither a frame nor a
timeout is pending that could change it. -/
theorem resize_does_not_rearm :
    (run rngHalf mounted [Event.timeout 1]).explosionTriggered = true
      ∧ (run rngHalf mounted [Event.timeout 1]).frames = [⟨2, 0⟩]
      ∧ (run rngHalf mounted [Event.timeout 1, Event.resize]).particles = []
      ∧ (run rngHalf mounted [Event.timeout 1, Event.resize]).explosionTriggered = true
      ∧ (run rngHalf mounted [Event.timeout 1, Event.resize]).frames = []
      ∧ (run rngHalf mounted [Event.timeout 1, Event.resize]).timers = [] := by
  decide!

/-- C8 (amended): in every world reached from the mounted component, a resize
signal empties the particle list and the container and leaves no frame callback
pending; it leaves `explosionTriggered`, the `finished` flags and the pending
timeouts as they were. -/
theorem resize_tears_down (rng : Nat → ℚ) (documentFooter : Option Rect) (cw ch vh : ℚ)
    (es : List Event) :
    (run rng (mountEffect documentFooter (initial cw ch vh)) (es ++ [Event.resize])).particles = []
      ∧ (∃ c, (run rng (mountEffect documentFooter (initial cw ch vh))
            (es ++ [Event.resize])).container = some c ∧ c.children = [])
      ∧ (run rng (mountEffect documentFooter (initial cw ch vh)) (es ++ [Event.resize])).frames = []
      ∧ (run rng (mountEffect documentFooter (initial cw ch vh))
            (es ++ [Event.resize])).explosionTriggered
          = (run rng (mountEffect documentFooter (initial cw ch vh)) es).explosionTriggered
      ∧ (run rng (mountEffect documentFooter (initial cw ch vh)) (es ++ [Event.resize])).finished
          = (run rng (mountEffect documentFooter (initial cw ch vh)) es).finished
      ∧ (run rng (mountEffect documentFooter (initial cw ch vh)) (es ++ [Event.resize])).timers
          = (run rng (mountEffect documentFooter (initial cw ch vh)) es).timers := by
  have hi := inv_run rng es (inv_mount documentFooter cw ch vh)
  have hrun : run rng (mountEffect documentFooter (initial cw ch vh)) (es ++ [Event.resize])
      = cleanupPreviousExplosion (run rng (mountEffect documentFooter (initial cw ch vh)) es) := by
    unfold run
    rw [List.foldl_append]
    show (if (List.foldl (step rng) _ es).listening then _ else _) = _
    have := hi.listening
    unfold run at this
    rw [this]
    rfl
  rw [hrun]
  generalize run rng (mountEffect documentFooter (initial cw ch vh)) es = w at hi
  obtain ⟨c, hc, _⟩ := hi.cont
  refine ⟨rfl, ⟨{ c with children := [] }, ?_, rfl⟩, (cleanup_of_inv hi).1,
    cleanup_explosionTriggered w, cleanup_finished w, cleanup_timers w⟩
  rw [cleanup_container, hc]
  rfl

end ExplosionContainer
